import Mathlib

/-!
# wrtc-tst: control protocol and media relay

A shallow embedding of `cmd/rpi-1/main.go` (the edge process) and
`cmd/srv-1/main.go` (the gateway process).

Go strings and byte slices are lists of bytes (`List Nat`, each element below 256 for a
real Go value).  The standard-library routines the two programs call
(`encoding/base64`, `unicode/utf8`, `encoding/json`) are modelled after their documented
behaviour; the functions of the repository are translated line by line on top of them.
-/

namespace WrtcTst

deriving instance DecidableEq for Except

/-! ## Bytes and strings -/

/-- A Go `string` / `[]byte`: its bytes. -/
abbrev GoString := List Nat

/-- The bytes of an ASCII literal. -/
def ascii (s : String) : GoString := s.toList.map Char.toNat

/-! ## encoding/base64, `StdEncoding` -/

/-- The standard alphabet `A-Z a-z 0-9 + /`: symbol of a 6-bit value. -/
def b64Char (v : Nat) : Nat :=
  if v < 26 then 65 + v
  else if v < 52 then 97 + (v - 26)
  else if v < 62 then 48 + (v - 52)
  else if v = 62 then 43
  else 47

/-- The decode map of `StdEncoding`: value of a symbol, `none` for bytes outside the alphabet
(`0xff` in the Go table). -/
def b64Val (c : Nat) : Option Nat :=
  if 65 ≤ c ∧ c ≤ 90 then some (c - 65)
  else if 97 ≤ c ∧ c ≤ 122 then some (c - 97 + 26)
  else if 48 ≤ c ∧ c ≤ 57 then some (c - 48 + 52)
  else if c = 43 then some 62
  else if c = 47 then some 63
  else none

/-- Go's `base64.StdEncoding.EncodeToString`: three bytes to four symbols, `=` padding. -/
def b64Encode : List Nat → List Nat
  | a :: b :: c :: rest =>
      b64Char (a / 4) :: b64Char (a % 4 * 16 + b / 16) :: b64Char (b % 16 * 4 + c / 64) ::
        b64Char (c % 64) :: b64Encode rest
  | [a, b] => [b64Char (a / 4), b64Char (a % 4 * 16 + b / 16), b64Char (b % 16 * 4), 61]
  | [a] => [b64Char (a / 4), b64Char (a % 4 * 16), 61, 61]
  | [] => []

/-- Drop the leading `\r` and `\n` bytes, counting them. -/
def skipNewlines : List Nat → Nat → List Nat × Nat
  | c :: rest, si => if c = 10 ∨ c = 13 then skipNewlines rest (si + 1) else (c :: rest, si)
  | [], si => ([], si)

/-- The bytes of a quantum of `dlen` gathered 6-bit values (`dlen - 1` bytes are kept). -/
def quantumBytes (acc : List Nat) : List Nat :=
  let v0 := acc.getD 0 0
  let v1 := acc.getD 1 0
  let v2 := acc.getD 2 0
  let v3 := acc.getD 3 0
  let val := v0 * 262144 + v1 * 4096 + v2 * 64 + v3
  ([val / 65536 % 256, val / 256 % 256, val % 256]).take (acc.length - 1)

/-- Go's `Encoding.Decode` for `StdEncoding` (padded, not strict): `src` is the input still to read,
`si` the index of its first byte, `total` the length of the whole input, `acc` the values
gathered in the current quantum and `out` the bytes decoded so far.  The error carries the
offset of `CorruptInputError`. -/
def b64DecodeAux (total : Nat) : List Nat → Nat → List Nat → List Nat → Except Nat (List Nat)
  | [], si, acc, out => if acc.length = 0 then .ok out else .error (si - acc.length)
  | c :: rest, si, acc, out =>
    match b64Val c with
    | some v =>
      if acc.length = 3 then b64DecodeAux total rest (si + 1) [] (out ++ quantumBytes (acc ++ [v]))
      else b64DecodeAux total rest (si + 1) (acc ++ [v]) out
    | none =>
      if c = 10 ∨ c = 13 then b64DecodeAux total rest (si + 1) acc out
      else if c ≠ 61 then .error si
      else if acc.length < 2 then .error si
      else if acc.length = 2 then
        match skipNewlines rest (si + 1) with
        | ([], _) => .error total
        | (d :: rest1, si1) =>
          if d ≠ 61 then .error (si1 - 1)
          else
            match skipNewlines rest1 (si1 + 1) with
            | ([], _) => .ok (out ++ quantumBytes acc)
            | (_ :: _, si2) => .error si2
      else
        match skipNewlines rest (si + 1) with
        | ([], _) => .ok (out ++ quantumBytes acc)
        | (_ :: _, si2) => .error si2

/-- Go's `base64.StdEncoding.DecodeString`. -/
def b64Decode (src : List Nat) : Except Nat (List Nat) :=
  b64DecodeAux src.length src 0 [] []

/-! ## unicode/utf8 -/

/-- Go's `utf8.RuneError`, U+FFFD. -/
def runeError : Nat := 0xFFFD

/-- Go's `utf8.EncodeRune`: runes above `MaxRune` and surrogates are written as U+FFFD. -/
def encodeRune (r : Nat) : List Nat :=
  if r ≤ 0x7F then [r]
  else if r ≤ 0x7FF then [0xC0 + r / 64, 0x80 + r % 64]
  else if 0x10FFFF < r ∨ (0xD800 ≤ r ∧ r ≤ 0xDFFF) then [0xEF, 0xBF, 0xBD]
  else if r ≤ 0xFFFF then [0xE0 + r / 4096, 0x80 + r / 64 % 64, 0x80 + r % 64]
  else [0xF0 + r / 262144, 0x80 + r / 4096 % 64, 0x80 + r / 64 % 64, 0x80 + r % 64]

/-- Go's `utf8.DecodeRune`: the first rune of `p` and its width; `(RuneError, 0)` on empty input and
`(RuneError, 1)` on an invalid encoding. -/
def decodeRune : List Nat → Nat × Nat
  | [] => (runeError, 0)
  | p0 :: rest =>
    if p0 < 0x80 then (p0, 1)
    else if p0 < 0xC2 ∨ 0xF4 < p0 then (runeError, 1)
    else
      let sz := if p0 < 0xE0 then 2 else if p0 < 0xF0 then 3 else 4
      let lo := if p0 = 0xE0 then 0xA0 else if p0 = 0xF0 then 0x90 else 0x80
      let hi := if p0 = 0xED then 0x9F else if p0 = 0xF4 then 0x8F else 0xBF
      match rest with
      | [] => (runeError, 1)
      | b1 :: rest1 =>
        if rest.length + 1 < sz then (runeError, 1)
        else if b1 < lo ∨ hi < b1 then (runeError, 1)
        else if sz ≤ 2 then (p0 % 32 * 64 + b1 % 64, 2)
        else
          match rest1 with
          | [] => (runeError, 1)
          | b2 :: rest2 =>
            if b2 < 0x80 ∨ 0xBF < b2 then (runeError, 1)
            else if sz ≤ 3 then (p0 % 16 * 4096 + b1 % 64 * 64 + b2 % 64, 3)
            else
              match rest2 with
              | [] => (runeError, 1)
              | b3 :: _ =>
                if b3 < 0x80 ∨ 0xBF < b3 then (runeError, 1)
                else (p0 % 8 * 262144 + b1 % 64 * 4096 + b2 % 64 * 64 + b3 % 64, 4)

/-- Go's `utf8.Valid`, with `fuel` at least the length of the input. -/
def validUTF8Aux : Nat → List Nat → Bool
  | 0, bs => bs.isEmpty
  | _ + 1, [] => true
  | fuel + 1, b :: rest =>
    let d := decodeRune (b :: rest)
    if d.1 = runeError ∧ d.2 = 1 then false
    else validUTF8Aux fuel ((b :: rest).drop d.2)

/-- Go's `utf8.ValidString`. -/
def validUTF8 (s : GoString) : Bool := validUTF8Aux s.length s

/-- A string coerced to valid UTF-8 the way `encoding/json` does it: every byte that starts no
valid encoding becomes U+FFFD.  `fuel` is at least the length of the input. -/
def coerceUTF8Aux : Nat → List Nat → List Nat
  | 0, _ => []
  | _ + 1, [] => []
  | fuel + 1, b :: rest =>
    if b < 0x80 then b :: coerceUTF8Aux fuel rest
    else
      let d := decodeRune (b :: rest)
      if d.1 = runeError ∧ d.2 = 1 then [0xEF, 0xBF, 0xBD] ++ coerceUTF8Aux fuel rest
      else (b :: rest).take d.2 ++ coerceUTF8Aux fuel ((b :: rest).drop d.2)

/-- A Go string coerced to valid UTF-8. -/
def coerceUTF8 (s : GoString) : GoString := coerceUTF8Aux s.length s

/-! ## encoding/json: writing -/

/-- The digit of `0123456789abcdef`. -/
def hexDigit (n : Nat) : Nat := if n < 10 then 48 + n else 97 + (n - 10)

/-- Go's `htmlSafeSet`: the ASCII bytes written without escaping when HTML escaping is on, as it
is in `json.Marshal`. -/
def htmlSafe (b : Nat) : Bool :=
  decide (0x20 ≤ b ∧ b < 0x80 ∧ b ≠ 0x22 ∧ b ≠ 0x5C ∧ b ≠ 0x3C ∧ b ≠ 0x3E ∧ b ≠ 0x26)

/-- The escape of an ASCII byte outside `htmlSafeSet` (Go 1.22 and later; older releases
write `\u0008` and `\u000c` for backspace and form feed, which the reader resolves to the
same bytes). -/
def escapeByte (b : Nat) : List Nat :=
  if b = 0x5C ∨ b = 0x22 then [0x5C, b]
  else if b = 8 then [0x5C, 0x62]
  else if b = 12 then [0x5C, 0x66]
  else if b = 10 then [0x5C, 0x6E]
  else if b = 13 then [0x5C, 0x72]
  else if b = 9 then [0x5C, 0x74]
  else [0x5C, 0x75, 0x30, 0x30, hexDigit (b / 16), hexDigit (b % 16)]

/-- The loop of `appendString`: the text between the quotes.  Invalid UTF-8 is written as
the escape of U+FFFD, U+2028 and U+2029 are escaped, every other rune is copied. -/
def quoteBody : Nat → List Nat → List Nat
  | 0, _ => []
  | _ + 1, [] => []
  | fuel + 1, b :: rest =>
    if b < 0x80 then
      (if htmlSafe b then [b] else escapeByte b) ++ quoteBody fuel rest
    else
      let d := decodeRune (b :: rest)
      if d.1 = runeError ∧ d.2 = 1 then
        [0x5C, 0x75, 0x66, 0x66, 0x66, 0x64] ++ quoteBody fuel rest
      else if d.1 = 0x2028 ∨ d.1 = 0x2029 then
        [0x5C, 0x75, 0x32, 0x30, 0x32, hexDigit (d.1 % 16)] ++ quoteBody fuel ((b :: rest).drop d.2)
      else
        (b :: rest).take d.2 ++ quoteBody fuel ((b :: rest).drop d.2)

/-- Go's `appendString` with `escapeHTML = true`: a Go string as a JSON string literal. -/
def appendString (s : GoString) : List Nat :=
  0x22 :: (quoteBody s.length s ++ [0x22])

/-! ## encoding/json: reading -/

/-- Outcome of scanning a prefix of the input: a value and the unread input, an invalid
character with the context of `SyntaxError`, the end of the input (with the context of the
error that the space fed by `scanner.eof` raises in that state, if it raises one), or fuel
exhausted. -/
inductive Scan (α : Type) where
  | done (a : α) (rest : List Nat)
  | fail (c : Nat) (context : String)
  | eof (context : Option String)
  | fuel
deriving DecidableEq

/-- Continue with the scanned value and the unread input; failures are passed on. -/
def Scan.bind {α β : Type} : Scan α → (α → List Nat → Scan β) → Scan β
  | .done a rest, f => f a rest
  | .fail c context, _ => .fail c context
  | .eof context, _ => .eof context
  | .fuel, _ => .fuel

/-- Go's `isSpace` of the scanner. -/
def isSpace (c : Nat) : Bool := decide (c = 0x20 ∨ c = 9 ∨ c = 13 ∨ c = 10)

/-- Skip the white space in front of the next token. -/
def skipSpace : List Nat → List Nat
  | c :: rest => if isSpace c then skipSpace rest else c :: rest
  | [] => []

/-- A decimal digit. -/
def isDigit (c : Nat) : Bool := decide (0x30 ≤ c ∧ c ≤ 0x39)

/-- A hexadecimal digit, either case. -/
def isHex (c : Nat) : Bool :=
  decide ((0x30 ≤ c ∧ c ≤ 0x39) ∨ (0x61 ≤ c ∧ c ≤ 0x66) ∨ (0x41 ≤ c ∧ c ≤ 0x46))

/-- The value of a hexadecimal digit. -/
def hexVal (c : Nat) : Nat :=
  if 0x30 ≤ c ∧ c ≤ 0x39 then c - 0x30
  else if 0x61 ≤ c ∧ c ≤ 0x66 then c - 0x61 + 10
  else c - 0x41 + 10

/-- The states `stateInStringEscU` to `stateInStringEscU123`: `n` hexadecimal digits are due;
`none` when they are all there. -/
def scanHex : Nat → List Nat → Option (Scan (List Nat))
  | 0, _ => none
  | _ + 1, [] => some (.eof (some "in \\u hexadecimal character escape"))
  | n + 1, h :: rest =>
    if isHex h then scanHex n rest else some (.fail h "in \\u hexadecimal character escape")

/-- The states `stateInString` and `stateInStringEsc`, entered after the opening quote: the
text up to the closing quote, escapes not yet resolved. -/
def scanString : Nat → List Nat → Scan (List Nat)
  | 0, _ => .fuel
  | _ + 1, [] => .eof none
  | fuel + 1, c :: rest =>
    if c = 0x22 then .done [] rest
    else if c = 0x5C then
      match rest with
      | [] => .eof (some "in string escape code")
      | e :: rest1 =>
        if e = 0x62 ∨ e = 0x66 ∨ e = 0x6E ∨ e = 0x72 ∨ e = 0x74 ∨ e = 0x5C ∨ e = 0x2F ∨ e = 0x22 then
          (scanString fuel rest1).bind fun body r => .done (c :: e :: body) r
        else if e = 0x75 then
          match scanHex 4 rest1 with
          | some err => err
          | none =>
            (scanString fuel (rest1.drop 4)).bind fun body r =>
              .done (c :: e :: (rest1.take 4 ++ body)) r
        else .fail e "in string escape code"
    else if c < 0x20 then .fail c "in string literal"
    else (scanString fuel rest).bind fun body r => .done (c :: body) r

/-- Go's `getu4`: the code unit of a `\uXXXX` escape at the head of `s`, `none` for Go's `-1`. -/
def getu4 : List Nat → Option Nat
  | 0x5C :: 0x75 :: h1 :: h2 :: h3 :: h4 :: _ =>
    if isHex h1 ∧ isHex h2 ∧ isHex h3 ∧ isHex h4 then
      some (hexVal h1 * 4096 + hexVal h2 * 256 + hexVal h3 * 16 + hexVal h4)
    else none
  | _ => none

/-- Go's `utf16.DecodeRune`: the rune of a surrogate pair, U+FFFD when the pair is not valid. -/
def utf16DecodeRune (r1 r2 : Nat) : Nat :=
  if 0xD800 ≤ r1 ∧ r1 < 0xDC00 ∧ 0xDC00 ≤ r2 ∧ r2 < 0xE000 then
    (r1 - 0xD800) * 1024 + (r2 - 0xDC00) + 0x10000
  else runeError

/-- The general loop of `unquoteBytes` on the text between the quotes (its first loop only
returns early the texts that the general loop leaves unchanged): escapes are resolved and
invalid UTF-8 is coerced to U+FFFD.  `none` is Go's `ok = false`. -/
def unquote : Nat → List Nat → Option (List Nat)
  | 0, s => if s.isEmpty then some [] else none
  | _ + 1, [] => some []
  | fuel + 1, c :: rest =>
    if c = 0x5C then
      match rest with
      | [] => none
      | e :: rest1 =>
        if e = 0x22 ∨ e = 0x5C ∨ e = 0x2F ∨ e = 0x27 then (unquote fuel rest1).map (e :: ·)
        else if e = 0x62 then (unquote fuel rest1).map (8 :: ·)
        else if e = 0x66 then (unquote fuel rest1).map (12 :: ·)
        else if e = 0x6E then (unquote fuel rest1).map (10 :: ·)
        else if e = 0x72 then (unquote fuel rest1).map (13 :: ·)
        else if e = 0x74 then (unquote fuel rest1).map (9 :: ·)
        else if e = 0x75 then
          match getu4 (c :: rest) with
          | none => none
          | some rr =>
            let rest2 := rest1.drop 4
            if 0xD800 ≤ rr ∧ rr < 0xE000 then
              match getu4 rest2 with
              | some rr1 =>
                if utf16DecodeRune rr rr1 ≠ runeError then
                  (unquote fuel (rest2.drop 6)).map (encodeRune (utf16DecodeRune rr rr1) ++ ·)
                else (unquote fuel rest2).map (encodeRune runeError ++ ·)
              | none => (unquote fuel rest2).map (encodeRune runeError ++ ·)
            else (unquote fuel rest2).map (encodeRune rr ++ ·)
        else none
    else if c = 0x22 ∨ c < 0x20 then none
    else if c < 0x80 then (unquote fuel rest).map (c :: ·)
    else
      let d := decodeRune (c :: rest)
      (unquote fuel ((c :: rest).drop d.2)).map (encodeRune d.1 ++ ·)

/-- Skip the digits of `state1`, `stateDot0` and `stateE0`. -/
def dropDigits : List Nat → List Nat
  | c :: rest => if isDigit c then dropDigits rest else c :: rest
  | [] => []

/-- The states `stateE`, `stateESign` and `stateE0`: the optional exponent. -/
def scanExp : List Nat → Scan Unit
  | [] => .done () []
  | e :: r1 =>
    if e = 0x65 ∨ e = 0x45 then
      match r1 with
      | [] => .eof (some "in exponent of numeric literal")
      | s :: r2 =>
        if s = 0x2B ∨ s = 0x2D then
          match r2 with
          | [] => .eof (some "in exponent of numeric literal")
          | d :: r3 =>
            if isDigit d then .done () (dropDigits r3)
            else .fail d "in exponent of numeric literal"
        else if isDigit s then .done () (dropDigits r2)
        else .fail s "in exponent of numeric literal"
    else .done () (e :: r1)

/-- The states `state0`, `stateDot` and `stateDot0`: the optional fraction, then the
exponent. -/
def scanFrac : List Nat → Scan Unit
  | 0x2E :: r1 =>
    match r1 with
    | [] => .eof (some "after decimal point in numeric literal")
    | d :: r2 =>
      if isDigit d then scanExp (dropDigits r2)
      else .fail d "after decimal point in numeric literal"
  | rest => scanExp rest

/-- A number whose first byte `c` (`-` or a digit) has been read. -/
def scanNumber (c : Nat) (rest : List Nat) : Scan Unit :=
  if c = 0x2D then
    match rest with
    | [] => .eof (some "in numeric literal")
    | d :: r =>
      if d = 0x30 then scanFrac r
      else if 0x31 ≤ d ∧ d ≤ 0x39 then scanFrac (dropDigits r)
      else .fail d "in numeric literal"
  else if c = 0x30 then scanFrac rest
  else scanFrac (dropDigits rest)

/-- The rest of the literal `name` (`true`, `false`, `null`) after its first letter. -/
def scanLiteral (name : String) : List Nat → List Nat → Scan Unit
  | [], rest => .done () rest
  | e :: _, [] =>
    .eof (some ("in literal " ++ name ++ " (expecting '" ++ String.singleton (Char.ofNat e) ++ "')"))
  | e :: es, c :: rest =>
    if c = e then scanLiteral name es rest
    else .fail c ("in literal " ++ name ++ " (expecting '" ++ String.singleton (Char.ofNat e) ++ "')")

/-- What the decoder needs of a JSON value: its kind, and its text when it is a string. -/
inductive JKind where
  | null
  | bool
  | number
  | string (s : GoString)
  | array
  | object
deriving DecidableEq

/-- Go's `maxNestingDepth` of the scanner. -/
def maxNestingDepth : Nat := 10000

mutual

/-- The state `stateBeginValue`: one JSON value, nested to `depth`. -/
def scanValue : Nat → Nat → List Nat → Scan JKind
  | 0, _, _ => .fuel
  | fuel + 1, depth, input =>
    match skipSpace input with
    | [] => .eof none
    | c :: rest =>
      if c = 0x7B then
        if maxNestingDepth < depth + 1 then .fail c "exceeded max depth"
        else (scanObject fuel (depth + 1) rest).bind fun _ r => .done .object r
      else if c = 0x5B then
        if maxNestingDepth < depth + 1 then .fail c "exceeded max depth"
        else (scanArray fuel (depth + 1) rest).bind fun _ r => .done .array r
      else if c = 0x22 then
        (scanString (rest.length + 1) rest).bind fun raw r =>
          match unquote raw.length raw with
          | some s => .done (.string s) r
          | none => .fuel
      else if c = 0x2D ∨ isDigit c then (scanNumber c rest).bind fun _ r => .done .number r
      else if c = 0x74 then (scanLiteral "true" [0x72, 0x75, 0x65] rest).bind fun _ r => .done .bool r
      else if c = 0x66 then
        (scanLiteral "false" [0x61, 0x6C, 0x73, 0x65] rest).bind fun _ r => .done .bool r
      else if c = 0x6E then (scanLiteral "null" [0x75, 0x6C, 0x6C] rest).bind fun _ r => .done .null r
      else .fail c "looking for beginning of value"
termination_by structural fuel => fuel

/-- The state `stateBeginStringOrEmpty`, entered after `{`: the members of the object, keys
unquoted. -/
def scanObject : Nat → Nat → List Nat → Scan (List (GoString × JKind))
  | 0, _, _ => .fuel
  | fuel + 1, depth, input =>
    match skipSpace input with
    | [] => .eof none
    | c :: rest => if c = 0x7D then .done [] rest else scanMembers fuel depth (c :: rest)
termination_by structural fuel => fuel

/-- The state `stateBeginString`: a key, `:`, a value, then `,` and the next member or `}`. -/
def scanMembers : Nat → Nat → List Nat → Scan (List (GoString × JKind))
  | 0, _, _ => .fuel
  | fuel + 1, depth, input =>
    match skipSpace input with
    | [] => .eof none
    | c :: rest =>
      if c ≠ 0x22 then .fail c "looking for beginning of object key string"
      else
        (scanString (rest.length + 1) rest).bind fun raw r1 =>
          match unquote raw.length raw with
          | none => .fuel
          | some key =>
            match skipSpace r1 with
            | [] => .eof none
            | c1 :: r2 =>
              if c1 ≠ 0x3A then .fail c1 "after object key"
              else
                (scanValue fuel depth r2).bind fun k r3 =>
                  match skipSpace r3 with
                  | [] => .eof none
                  | c2 :: r4 =>
                    if c2 = 0x2C then
                      (scanMembers fuel depth r4).bind fun ms r5 => .done ((key, k) :: ms) r5
                    else if c2 = 0x7D then .done [(key, k)] r4
                    else .fail c2 "after object key:value pair"
termination_by structural fuel => fuel

/-- The state `stateBeginValueOrEmpty`, entered after `[`. -/
def scanArray : Nat → Nat → List Nat → Scan Unit
  | 0, _, _ => .fuel
  | fuel + 1, depth, input =>
    match skipSpace input with
    | [] => .eof none
    | c :: rest => if c = 0x5D then .done () rest else scanElements fuel depth (c :: rest)
termination_by structural fuel => fuel

/-- An element, then `,` and the next element or `]`. -/
def scanElements : Nat → Nat → List Nat → Scan Unit
  | 0, _, _ => .fuel
  | fuel + 1, depth, input =>
    (scanValue fuel depth input).bind fun _ r1 =>
      match skipSpace r1 with
      | [] => .eof none
      | c :: r2 =>
        if c = 0x2C then scanElements fuel depth r2
        else if c = 0x5D then .done () r2
        else .fail c "after array element"
termination_by structural fuel => fuel

end

/-- A top-level value: an object with its members, or the kind of any other value. -/
inductive JTop where
  | object (members : List (GoString × JKind))
  | value (k : JKind)
deriving DecidableEq

/-- One top-level JSON value at the head of `data` and the input after it.  Every three nested
calls of the scanner read at least one byte, hence the fuel. -/
def scanTop (data : List Nat) : Scan JTop :=
  match skipSpace data with
  | [] => .eof none
  | c :: rest =>
    if c = 0x7B then
      (scanObject (3 * data.length + 3) 1 rest).bind fun ms r => .done (.object ms) r
    else (scanValue (3 * data.length + 3) 0 (c :: rest)).bind fun k r => .done (.value k) r

/-! ## Error values -/

/-- The Go `error` values the two programs meet. -/
inductive GoError where
  /-- Go's `json.SyntaxError`, "unexpected end of JSON input". -/
  | jsonEnd
  /-- Go's `json.SyntaxError`, "invalid character c context". -/
  | jsonChar (c : Nat) (context : String)
  /-- Go's `json.UnmarshalTypeError`: a JSON value of kind `value` met for `target`. -/
  | unmarshalType (value : String) (target : String)
  /-- Go's `webrtc.ErrUnknownType`. -/
  | unknownType
  /-- Go's `base64.CorruptInputError`. -/
  | corruptInput (offset : Nat)
  /-- Go's `io.EOF`. -/
  | eof
  /-- Go's `io.ErrUnexpectedEOF`. -/
  | unexpectedEOF
  /-- The decoder's phase panic, raised when the scanner's fuel runs out. -/
  | internal
  /-- The error of `fmt.Errorf("msg: %w", err)`. -/
  | wrap (msg : String) (err : GoError)
  /-- The error of `fmt.Errorf` for a text without a wrapped error. -/
  | errorf (msg : GoString)
  /-- An error of the network, of the negotiator or of the operating system. -/
  | foreign (msg : GoString)
deriving DecidableEq

/-- Two hexadecimal digits. -/
def hex2 (c : Nat) : List Nat := [hexDigit (c / 16 % 16), hexDigit (c % 16)]

/-- Go's `quoteChar` of the scanner: the offending byte as shown in a syntax error. -/
def quoteChar (c : Nat) : GoString :=
  if c = 0x27 then ascii "'\\''"
  else if c = 0x22 then ascii "'\"'"
  else if c = 0x5C then ascii "'\\\\'"
  else if (0x20 ≤ c ∧ c ≤ 0x7E) ∨ (0xA1 ≤ c ∧ c ≤ 0xFF ∧ c ≠ 0xAD) then [0x27] ++ encodeRune c ++ [0x27]
  else if c = 7 then ascii "'\\a'"
  else if c = 8 then ascii "'\\b'"
  else if c = 12 then ascii "'\\f'"
  else if c = 10 then ascii "'\\n'"
  else if c = 13 then ascii "'\\r'"
  else if c = 9 then ascii "'\\t'"
  else if c = 11 then ascii "'\\v'"
  else if c < 0x20 ∨ c = 0x7F then ascii "'\\x" ++ hex2 c ++ [0x27]
  else ascii "'\\u00" ++ hex2 c ++ [0x27]

/-- The method `Error()`. -/
def GoError.Error : GoError → GoString
  | .jsonEnd => ascii "unexpected end of JSON input"
  | .jsonChar c context => ascii "invalid character " ++ quoteChar c ++ ascii " " ++ ascii context
  | .unmarshalType value target => ascii ("json: cannot unmarshal " ++ value ++ " into " ++ target)
  | .unknownType => ascii "unknown"
  | .corruptInput offset => ascii ("illegal base64 data at input byte " ++ toString offset)
  | .eof => ascii "EOF"
  | .unexpectedEOF => ascii "unexpected EOF"
  | .internal => ascii "JSON decoder out of sync - data changing underfoot?"
  | .wrap msg err => ascii msg ++ ascii ": " ++ err.Error
  | .errorf msg => msg
  | .foreign msg => msg

/-- The error of `checkValid` or of a `Decoder` for a scan that did not reach a value. -/
def scanFailure : Scan JTop → GoError
  | .fail c context => .jsonChar c context
  | .eof none => .jsonEnd
  | .eof (some context) => .jsonChar 0x20 context
  | _ => .internal

/-- Go's `checkValid` and the parse of `Unmarshal`: `data` must hold one JSON value, with nothing
but white space after it. -/
def parseDocument (data : List Nat) : Except GoError JTop :=
  match scanTop data with
  | .done v rest =>
    match skipSpace rest with
    | [] => .ok v
    | c :: _ => .error (.jsonChar c "after top-level value")
  | other => .error (scanFailure other)

/-! ## The structs and their JSON form -/

/-- The struct `Cmd` of both programs. -/
structure Cmd where
  Name : GoString
  Data : GoString
deriving DecidableEq

/-- The struct `webrtc.SessionDescription`: `Typ` is the field `Type`, the integer of `webrtc.SDPType` (1 offer,
2 pranswer, 3 answer, 4 rollback; 0, the zero value, is no known type) and `SDP` the text.
The unexported field `parsed` takes no part in JSON and is left out. -/
structure SessionDescription where
  Typ : Nat
  SDP : GoString
deriving DecidableEq

/-- Go's `SDPType.String`. -/
def sdpTypeString (t : Nat) : GoString :=
  if t = 1 then ascii "offer"
  else if t = 2 then ascii "pranswer"
  else if t = 3 then ascii "answer"
  else if t = 4 then ascii "rollback"
  else ascii "unknown"

/-- Go's `json.Marshal` of a `Cmd`. -/
def marshalCmd (cmd : Cmd) : List Nat :=
  ascii "\x7b\"name\":" ++ appendString cmd.Name ++ ascii ",\"data\":" ++ appendString cmd.Data ++
    ascii "\x7d"

/-- Go's `json.Marshal` of a `webrtc.SessionDescription`; `SDPType.MarshalJSON` writes the name of
the type as a JSON string. -/
def marshalSD (sd : SessionDescription) : List Nat :=
  ascii "\x7b\"type\":" ++ appendString (sdpTypeString sd.Typ) ++ ascii ",\"sdp\":" ++
    appendString sd.SDP ++ ascii "\x7d"

/-- Go's `foldName`: the key under which a JSON member is matched to a field when no field has
exactly its name.  ASCII letters are upper-cased; U+017F and U+212A fold to `S` and `K`; every
other rune folds to a rune outside ASCII and is kept as it is. -/
def foldName : Nat → List Nat → List Nat
  | 0, _ => []
  | _ + 1, [] => []
  | fuel + 1, c :: rest =>
    if c < 0x80 then (if 0x61 ≤ c ∧ c ≤ 0x7A then c - 32 else c) :: foldName fuel rest
    else
      let d := decodeRune (c :: rest)
      (if d.1 = 0x17F then [0x53] else if d.1 = 0x212A then [0x4B] else encodeRune d.1) ++
        foldName fuel ((c :: rest).drop d.2)

/-- The field of a struct that a member key selects: the exact name first, then the folded
name. -/
def keyIs (key : GoString) (field : String) : Bool :=
  decide (key = ascii field) || decide (foldName key.length key = foldName field.length (ascii field))

/-- What decoding one member does to the destination. -/
inductive Store (α : Type) where
  /-- The value is stored. -/
  | set (v : α)
  /-- The destination is left as it is (`null`, or a member that selects no field). -/
  | keep
  /-- Go's `saveError`: the error is kept if it is the first one, decoding goes on. -/
  | saved (e : GoError)
  /-- The error of an `UnmarshalJSON` method: decoding stops. -/
  | abort (e : GoError)

/-- The `Value` of an `UnmarshalTypeError`. -/
def kindName : JKind → String
  | .null => "null"
  | .bool => "bool"
  | .number => "number"
  | .string _ => "string"
  | .array => "array"
  | .object => "object"

/-- Go's `literalStore`, `array` and `object` for a destination of kind string, the field `field`
of the struct `struct`. -/
def storeString (struct field : String) : JKind → Store GoString
  | .string s => .set s
  | .null => .keep
  | k => .saved (.unmarshalType (kindName k)
      ("Go struct field " ++ struct ++ "." ++ field ++ " of type string"))

/-- The loop of `decodeState.object` on a struct: the members in the order of the text. -/
def decodeMembers {α : Type} (step : α → GoString → JKind → Store α) :
    List (GoString × JKind) → α → Option GoError → α × Option GoError
  | [], v, saved => (v, saved)
  | (key, k) :: ms, v, saved =>
    match step v key k with
    | .set v1 => decodeMembers step ms v1 saved
    | .keep => decodeMembers step ms v saved
    | .saved e => decodeMembers step ms v (if saved.isSome then saved else some e)
    | .abort e => (v, some e)

/-- One member of the JSON form of a `Cmd`. -/
def cmdStep (cmd : Cmd) (key : GoString) (k : JKind) : Store Cmd :=
  if keyIs key "name" then
    match storeString "Cmd" "name" k with
    | .set s => .set { cmd with Name := s }
    | .keep => .keep
    | .saved e => .saved e
    | .abort e => .abort e
  else if keyIs key "data" then
    match storeString "Cmd" "data" k with
    | .set s => .set { cmd with Data := s }
    | .keep => .keep
    | .saved e => .saved e
    | .abort e => .abort e
  else .keep

/-- The decoding of a parsed value into the `Cmd` held by `v`. -/
def decodeCmd (v : Cmd) : JTop → Cmd × Option GoError
  | .object ms => decodeMembers cmdStep ms v none
  | .value .null => (v, none)
  | .value k => (v, some (.unmarshalType (kindName k) "Go value of type main.Cmd"))

/-- The call `json.Unmarshal(data, &v)` for a `Cmd`: the new value of `v` and the error. -/
def unmarshalCmd (data : List Nat) (v : Cmd) : Cmd × Option GoError :=
  match parseDocument data with
  | .error e => (v, some e)
  | .ok top => decodeCmd v top

/-- Go's `strings.ToLower` as far as a comparison with the names of `SDPType` goes: ASCII letters
are lower-cased, U+212A and U+0130 become `k` and `i`, and every other rune is kept (its lower
case is no ASCII letter). -/
def toLower : Nat → List Nat → List Nat
  | 0, _ => []
  | _ + 1, [] => []
  | fuel + 1, c :: rest =>
    if c < 0x80 then (if 0x41 ≤ c ∧ c ≤ 0x5A then c + 32 else c) :: toLower fuel rest
    else
      let d := decodeRune (c :: rest)
      (if d.1 = 0x212A then [0x6B] else if d.1 = 0x130 then [0x69] else encodeRune d.1) ++
        toLower fuel ((c :: rest).drop d.2)

/-- The switch of `SDPType.UnmarshalJSON` on the lower-cased name; `none` is
`ErrUnknownType`. -/
def sdpTypeOfName (s : GoString) : Option Nat :=
  let l := toLower s.length s
  if l = ascii "offer" then some 1
  else if l = ascii "pranswer" then some 2
  else if l = ascii "answer" then some 3
  else if l = ascii "rollback" then some 4
  else none

/-- Go's `SDPType.UnmarshalJSON` on the text of a member value: the value is first unmarshalled
into a Go string (`null` leaves the empty string). -/
def storeSDPType : JKind → Store Nat
  | .string s =>
    match sdpTypeOfName s with
    | some t => .set t
    | none => .abort .unknownType
  | .null => .abort .unknownType
  | k => .abort (.unmarshalType (kindName k) "Go struct field SessionDescription.type of type string")

/-- One member of the JSON form of a `SessionDescription`. -/
def sdStep (sd : SessionDescription) (key : GoString) (k : JKind) : Store SessionDescription :=
  if keyIs key "type" then
    match storeSDPType k with
    | .set t => .set { sd with Typ := t }
    | .keep => .keep
    | .saved e => .saved e
    | .abort e => .abort e
  else if keyIs key "sdp" then
    match storeString "SessionDescription" "sdp" k with
    | .set s => .set { sd with SDP := s }
    | .keep => .keep
    | .saved e => .saved e
    | .abort e => .abort e
  else .keep

/-- The call `json.Unmarshal(data, &v)` for a `webrtc.SessionDescription`. -/
def unmarshalSD (data : List Nat) (v : SessionDescription) : SessionDescription × Option GoError :=
  match parseDocument data with
  | .error e => (v, some e)
  | .ok (.object ms) => decodeMembers sdStep ms v none
  | .ok (.value .null) => (v, none)
  | .ok (.value k) =>
    (v, some (.unmarshalType (kindName k) "Go value of type webrtc.SessionDescription"))

/-! ## The command channel: `send`, `recv`, `encode64`, `decode64` -/

/-- What a `Write` on the control connection returns. -/
inductive WriteOutcome where
  /-- All the bytes are taken, no error. -/
  | full
  /-- Only `n` bytes are taken, with the error `err` if there is one. -/
  | part (n : Nat) (err : Option GoError)
deriving DecidableEq

/-- The releases that `serve` defers. -/
inductive Deferred where
  | closeConn
  | closePeerConnection
  | closeUDP
  | killPlayer
deriving DecidableEq

/-- What the programs do to the outside, in the order they do it. -/
inductive Event where
  /-- The call `Write(buf)` on the control connection, which took `n` bytes. -/
  | write (buf : List Nat) (n : Nat)
  /-- A `json.Decoder` read a value from the control connection. -/
  | read
  | setRemoteDescription (offer : SessionDescription)
  | createAnswer
  | setLocalDescription (answer : SessionDescription)
  | gatherComplete
  | startPlayer
  | released (d : Deferred)
  /-- A text message written to the websocket of the client. -/
  | wsWrite (msg : List Nat)
deriving DecidableEq

/-- The control connection and the record of what was done: `reads` holds the data of the
`Read`s to come (the peer has closed the connection after them), `writes` the outcomes of the
`Write`s to come (every later `Write` takes all its bytes), `defers` the stack of deferred
releases. -/
structure World where
  reads : List (List Nat)
  writes : List WriteOutcome
  trace : List Event
  defers : List Deferred
deriving DecidableEq

/-- A step of a goroutine: it returns a value or panics, and changes the world. -/
def Run (α : Type) : Type := World → Except GoError α × World

instance : Monad Run where
  pure a := fun w => (.ok a, w)
  bind m f := fun w =>
    match m w with
    | (.ok a, w1) => f a w1
    | (.error e, w1) => (.error e, w1)

/-- The statement `panic(err)`. -/
def goPanic {α : Type} (e : GoError) : Run α := fun w => (.error e, w)

/-- The statement `if err != nil { panic(err) }`. -/
def panicIf (err : Option GoError) : Run Unit :=
  match err with
  | some e => goPanic e
  | none => pure ()

/-- Record an event. -/
def emit (e : Event) : Run Unit := fun w => (.ok (), { w with trace := w.trace ++ [e] })

/-- The statement `defer`. -/
def deferRelease (d : Deferred) : Run Unit := fun w => (.ok (), { w with defers := d :: w.defers })

/-- The call `w.Write(buf)` on the control connection: the number of bytes taken and the error. -/
def connWrite (buf : List Nat) : Run (Nat × Option GoError) := fun w =>
  match w.writes with
  | [] => (.ok (buf.length, none), { w with trace := w.trace ++ [.write buf buf.length] })
  | .full :: rest =>
    (.ok (buf.length, none), { w with writes := rest, trace := w.trace ++ [.write buf buf.length] })
  | .part n err :: rest =>
    (.ok (min n buf.length, err),
      { w with writes := rest, trace := w.trace ++ [.write buf (min n buf.length)] })

/-- The function `send` (the same in both programs). -/
def send (cmd : Cmd) : Run (Option GoError) := do
  let buf := marshalCmd cmd
  let (n, err) ← connWrite buf
  match err with
  | some e => pure (some (.wrap "could not send command" e))
  | none =>
    if n ≠ buf.length then
      pure (some (.errorf (ascii ("could not send command: short write (got=" ++ toString n ++
        ", want=" ++ toString buf.length ++ ")"))))
    else pure none

/-- A value that the scanner ends on its last byte; any other value ends on the byte after
it. -/
def endsByItself : JTop → Bool
  | .object _ => true
  | .value .array => true
  | _ => false

/-- Go's `nonSpace`. -/
def nonSpace (b : List Nat) : Bool := b.any fun c => !isSpace c

/-- Go's `Decoder.readValue` and the parse of the value: `buf` holds the bytes read so far, the
first argument the data of the `Read`s to come.  Also returned: the `Read`s not done. -/
def readValue : List (List Nat) → List Nat → Except GoError JTop × List (List Nat)
  | [], buf =>
    match scanTop buf with
    | .done v _ => (.ok v, [])
    | .fail c context => (.error (.jsonChar c context), [])
    | .eof _ => (.error (if nonSpace buf then .unexpectedEOF else .eof), [])
    | .fuel => (.error .internal, [])
  | r :: rs, buf =>
    match scanTop buf with
    | .done v rest =>
      if endsByItself v ∨ rest ≠ [] then (.ok v, r :: rs) else readValue rs (buf ++ r)
    | .fail c context => (.error (.jsonChar c context), r :: rs)
    | .eof _ => readValue rs (buf ++ r)
    | .fuel => (.error .internal, r :: rs)

/-- The call `json.NewDecoder(r).Decode(&v)` for a `Cmd`: the decoder is new, so what it has read
beyond the value is lost with it. -/
def decoderDecode (v : Cmd) : Run (Cmd × Option GoError) := fun w =>
  match readValue w.reads [] with
  | (.ok top, rest) => (.ok (decodeCmd v top), { w with reads := rest, trace := w.trace ++ [.read] })
  | (.error e, rest) => (.ok (v, some e), { w with reads := rest, trace := w.trace ++ [.read] })

/-- The function `recv` (the same in both programs). -/
def recv : Run (Cmd × Option GoError) := do
  let (cmd, err) ← decoderDecode ⟨[], []⟩
  match err with
  | some e => pure (cmd, some (.wrap "could not decode command" e))
  | none => pure (cmd, none)

/-- The function `decode64` of the edge process, for the `*webrtc.SessionDescription` it is
called with: the new value behind `ptr` and the error. -/
def decode64 (v : GoString) (ptr : SessionDescription) : SessionDescription × Option GoError :=
  match b64Decode v with
  | .error offset => (ptr, some (.corruptInput offset))
  | .ok raw => unmarshalSD raw ptr

/-- The function `encode64`, for the `webrtc.SessionDescription` it is called with
(`json.Marshal` does not fail on it). -/
def encode64 (obj : SessionDescription) : GoString := b64Encode (marshalSD obj)

/-! ## The edge process: `serve` -/

/-- What the libraries and the operating system answer to `serve`: `none` is a `nil` error. -/
structure Env where
  registerCodec : Option GoError
  registerDefaultInterceptors : Option GoError
  newPeerConnection : Option GoError
  addTransceiverFromKind : Option GoError
  resolveLocalAddr : Option GoError
  resolveRemoteAddr : Option GoError
  dialUDP : Option GoError
  /-- The call `pc.SetRemoteDescription(offer)`. -/
  setRemoteDescription : SessionDescription → Option GoError
  /-- The call `pc.CreateAnswer(nil)`. -/
  createAnswer : Except GoError SessionDescription
  /-- The call `pc.SetLocalDescription(answer)`. -/
  setLocalDescription : SessionDescription → Option GoError
  /-- The call `pc.LocalDescription()` once the gathering is complete. -/
  localDescription : SessionDescription
  /-- The call `video.Start()`. -/
  startPlayer : Option GoError
  /-- Go's `Close` of the UDP socket of the destination. -/
  closeUDP : Option GoError
  /-- The call `pc.Close()`. -/
  closePeerConnection : Option GoError

/-- The text of `%+v` for a `Cmd`. -/
def fmtCmd (cmd : Cmd) : GoString :=
  ascii "\x7bName:" ++ cmd.Name ++ ascii " Data:" ++ cmd.Data ++ ascii "\x7d"

/-- The body of `serve`, its deferred calls left on the stack of the world. -/
def serveBody (env : Env) : Run Unit := do
  deferRelease .closeConn
  panicIf env.registerCodec
  panicIf env.registerDefaultInterceptors
  panicIf env.newPeerConnection
  deferRelease .closePeerConnection
  panicIf env.addTransceiverFromKind
  panicIf env.resolveLocalAddr
  -- the loop over `udpConns`, which holds the one destination "video"
  panicIf env.resolveRemoteAddr
  panicIf env.dialUDP
  deferRelease .closeUDP
  -- pc.OnTrack, pc.OnICEConnectionStateChange and pc.OnConnectionStateChange take their handlers
  let err ← send ⟨ascii "ready", []⟩
  panicIf err
  let (cmd, err) ← recv
  match err with
  | some e =>
    let _ ← send ⟨ascii "error", e.Error⟩
    goPanic e
  | none =>
  let (offer, err) := decode64 cmd.Data ⟨0, []⟩
  match err with
  | some e =>
    let _ ← send ⟨ascii "error", e.Error⟩
    goPanic e
  | none =>
  emit (.setRemoteDescription offer)
  match env.setRemoteDescription offer with
  | some e =>
    let _ ← send ⟨ascii "error", e.Error⟩
    goPanic e
  | none =>
  emit .createAnswer
  match env.createAnswer with
  | .error e =>
    let _ ← send ⟨ascii "error", e.Error⟩
    goPanic e
  | .ok answer =>
  emit (.setLocalDescription answer)
  match env.setLocalDescription answer with
  | some e =>
    let _ ← send ⟨ascii "error", e.Error⟩
    goPanic e
  | none =>
  emit .gatherComplete
  -- json.Marshal(pc.LocalDescription()), which does not fail on a session description
  let raw := marshalSD env.localDescription
  let err ← send ⟨ascii "answer", raw⟩
  panicIf err
  let (cmd, err) ← recv
  match err with
  | some e =>
    let _ ← send ⟨ascii "error", e.Error⟩
    goPanic e
  | none =>
  if cmd.Name ≠ ascii "start" then do
    let _ ← send ⟨ascii "error", ascii "unexpected command"⟩
    goPanic (.errorf (ascii "unexpected command " ++ fmtCmd cmd))
  else
  emit .startPlayer
  match env.startPlayer with
  | some e =>
    let _ ← send ⟨ascii "error", e.Error⟩
    goPanic e
  | none =>
  deferRelease .killPlayer
  let err ← send ⟨ascii "ok", []⟩
  panicIf err
  let (cmd, err) ← recv
  match err with
  | some e =>
    let _ ← send ⟨ascii "error", e.Error⟩
    goPanic e
  | none =>
  if cmd.Name ≠ ascii "stop" then
    goPanic (.errorf (ascii "unexpected command " ++ fmtCmd cmd))
  else
  let err ← send ⟨ascii "ok", []⟩
  panicIf err

/-- The deferred calls, run last in first out when `serve` returns or panics: the panic in
flight and the trace.  A failed `Close` of the UDP socket panics in turn; the calls deferred
before it still run. -/
def runDefers (env : Env) : List Deferred → Option GoError → List Event → Option GoError × List Event
  | [], p, trace => (p, trace)
  | .closeUDP :: ds, p, trace =>
    runDefers env ds (if env.closeUDP.isSome then env.closeUDP else p) (trace ++ [.released .closeUDP])
  | d :: ds, p, trace => runDefers env ds p (trace ++ [.released d])

/-- How a run of `serve` ends. -/
structure Ending where
  /-- The panic that ends the goroutine, `none` when `serve` returns. -/
  panic : Option GoError
  /-- Everything done, in order. -/
  trace : List Event
deriving DecidableEq

/-- The function `serve` on a connection whose peer sends `reads` and whose `Write`s end as
`writes` says. -/
def serve (env : Env) (reads : List (List Nat)) (writes : List WriteOutcome) : Ending :=
  match serveBody env ⟨reads, writes, [], []⟩ with
  | (.ok (), w) => let r := runDefers env w.defers none w.trace; ⟨r.1, r.2⟩
  | (.error e, w) => let r := runDefers env w.defers (some e) w.trace; ⟨r.1, r.2⟩

/-! ## The edge process: the handler of `pc.OnTrack` -/

/-- The struct `rtp.Header`. -/
structure RtpHeader where
  Version : Nat
  Padding : Bool
  Extension : Bool
  Marker : Bool
  PayloadType : Nat
  SequenceNumber : Nat
  Timestamp : Nat
  SSRC : Nat
  CSRC : List Nat
  ExtensionProfile : Nat
  Extensions : List (Nat × List Nat)
deriving DecidableEq

/-- The struct `rtp.Packet`. -/
structure RtpPacket where
  Header : RtpHeader
  Payload : List Nat
  PaddingSize : Nat
deriving DecidableEq

/-- The wire format of `github.com/pion/rtp`, which the repository takes as it is:
`Packet.Unmarshal` and the bytes that `Packet.Marshal` produces. -/
structure RtpLib where
  unmarshal : List Nat → Except GoError RtpPacket
  marshal : RtpPacket → List Nat

/-- The call `Packet.MarshalTo(buf)`: the packet is written at the head of `buf`, `io.ErrShortBuffer`
when it does not fit.  The number of bytes written and the new content of `buf`. -/
def RtpLib.MarshalTo (lib : RtpLib) (p : RtpPacket) (buf : List Nat) :
    Except GoError (Nat × List Nat) :=
  let bytes := lib.marshal p
  if buf.length < bytes.length then .error (.foreign (ascii "short buffer"))
  else .ok (bytes.length, bytes ++ buf.drop bytes.length)

/-- The struct `udpConn`, without its socket. -/
structure udpConn where
  port : Nat
  payloadType : Nat
deriving DecidableEq

/-- The map `udpConns` of `serve`. -/
def udpConns (kind : String) : Option udpConn :=
  if kind = "video" then some ⟨4002, 96⟩ else none

/-- An error returned by `c.conn.Write`. -/
inductive WriteError where
  /-- A `*net.OpError`: `desc` is its operation and addresses, `inner` its field `Err`. -/
  | opError (desc : String) (inner : GoError)
  /-- An error of any other type. -/
  | other (e : GoError)
deriving DecidableEq

/-- The error value itself. -/
def WriteError.toError : WriteError → GoError
  | .opError desc inner => .wrap desc inner
  | .other e => e

/-- The test `opError, ok := err.(*net.OpError); ok && opError.Err.Error() == "write: connection
refused"`. -/
def WriteError.isRefused : WriteError → Bool
  | .opError _ inner => decide (inner.Error = ascii "write: connection refused")
  | .other _ => false

/-- What one turn of the loop meets: the packet that `track.Read` returns (or its error) and
the error of `c.conn.Write`, should the turn get that far. -/
structure TrackStep where
  read : Except GoError (List Nat)
  write : Option WriteError
deriving DecidableEq

/-- What the loop does to the outside. -/
inductive RelayEvent where
  /-- The call `track.Read(b)` was made. -/
  | trackRead
  /-- The call `c.conn.Write(bytes)` was made and returned no error. -/
  | written (bytes : List Nat)
  /-- The call `c.conn.Write(bytes)` was made and returned an error. -/
  | writeFailed (bytes : List Nat)
deriving DecidableEq

/-- How far the loop is after the packets given: `panic` is `none` while it waits for the
next packet. -/
structure RelayEnd where
  panic : Option GoError
  trace : List RelayEvent
deriving DecidableEq

/-- The assignment `rtpPacket.PayloadType = pt`. -/
def RtpPacket.setPayloadType (p : RtpPacket) (pt : Nat) : RtpPacket :=
  { p with Header := { p.Header with PayloadType := pt } }

/-- The call `copy(b, data)`, as `track.Read(b)` does it. -/
def copyInto (b data : List Nat) : List Nat := data.take b.length ++ b.drop data.length

/-- The loop `for { ... }` of the handler: `b` is the buffer of 1500 bytes, `trace` what was
done before. -/
def relayLoop (lib : RtpLib) (c : udpConn) :
    List TrackStep → List Nat → List RelayEvent → RelayEnd
  | [], _, trace => ⟨none, trace⟩
  | step :: steps, b, trace =>
    -- n, _, readErr := track.Read(b)
    match step.read with
    | .error readErr => ⟨some readErr, trace ++ [.trackRead]⟩
    | .ok data =>
      let b1 := copyInto b data
      let n := min data.length b.length
      -- rtpPacket.Unmarshal(b[:n])
      match lib.unmarshal (b1.take n) with
      | .error err => ⟨some err, trace ++ [.trackRead]⟩
      | .ok rtpPacket =>
        -- rtpPacket.PayloadType = c.payloadType; n, err = rtpPacket.MarshalTo(b)
        match lib.MarshalTo (rtpPacket.setPayloadType c.payloadType) b1 with
        | .error err => ⟨some err, trace ++ [.trackRead]⟩
        | .ok (n1, b2) =>
          -- c.conn.Write(b[:n])
          match step.write with
          | none => relayLoop lib c steps b2 (trace ++ [.trackRead, .written (b2.take n1)])
          | some err =>
            if err.isRefused then
              relayLoop lib c steps b2 (trace ++ [.trackRead, .writeFailed (b2.take n1)])
            else ⟨some err.toError, trace ++ [.trackRead, .writeFailed (b2.take n1)]⟩

/-- The handler given to `pc.OnTrack`, for a track of kind `kind`: a track without a
destination is left alone.  The goroutine that the handler starts for the keyframe requests
runs beside the loop and is not part of it. -/
def onTrack (lib : RtpLib) (kind : String) (steps : List TrackStep) : RelayEnd :=
  match udpConns kind with
  | none => ⟨none, []⟩
  | some c => relayLoop lib c steps (List.replicate 1500 0) []

/-! ## The gateway process: `handleMsg` -/

/-- The call `ws.WriteJSON(v)` for a `Cmd`: one text message, the JSON form and a newline; `wsErr` is
the error of the websocket. -/
def wsWriteJSON (wsErr : Option GoError) (v : Cmd) : Run (Option GoError) := do
  emit (.wsWrite (marshalCmd v ++ [0x0A]))
  pure wsErr

/-- The exchange of the cases "start" and "stop": one command sent, one reply, which must be
`ok`. -/
def exchangeOk (name : String) : Run (Option GoError) := do
  let err ← send ⟨ascii name, []⟩
  match err with
  | some e => pure (some (.wrap "could not send start cmd" e))
  | none =>
  let (rep, err) ← recv
  match err with
  | some e => pure (some (.wrap "could not recv reply" e))
  | none =>
  if rep.Name ≠ ascii "ok" then pure (some (.errorf (ascii "could not recv reply: " ++ fmtCmd rep)))
  else pure none

/-- The function `handleMsg`; the control connection is that of the world. -/
def handleMsg (wsErr : Option GoError) (msg : Cmd) : Run (Option GoError) :=
  if msg.Name = ascii "start" then exchangeOk "start"
  else if msg.Name = ascii "stop" then exchangeOk "stop"
  else if msg.Name = ascii "offer" then do
    let (offer, err) := unmarshalSD msg.Data ⟨0, []⟩
    match err with
    | some e => pure (some e)
    | none =>
    let err ← send ⟨ascii "offer", encode64 offer⟩
    match err with
    | some e => pure (some (.wrap "could not send offer" e))
    | none =>
    let (rep, err) ← recv
    match err with
    | some e => pure (some (.wrap "could not recv reply" e))
    | none =>
    if rep.Name ≠ ascii "answer" then
      pure (some (.errorf (ascii "could not recv reply: " ++ fmtCmd rep)))
    else do
    let err ← wsWriteJSON wsErr rep
    match err with
    | some e => pure (some (.wrap "could not fwd reply to ws" e))
    | none => pure none
  else pure none

/-! ## Concrete surroundings -/

/-- An environment in which every call of `serve` to a library or to the operating system
succeeds; the negotiator answers with the description `answer`. -/
def acceptingEnv (answer : SessionDescription) : Env where
  registerCodec := none
  registerDefaultInterceptors := none
  newPeerConnection := none
  addTransceiverFromKind := none
  resolveLocalAddr := none
  resolveRemoteAddr := none
  dialUDP := none
  setRemoteDescription := fun _ => none
  createAnswer := .ok answer
  setLocalDescription := fun _ => none
  localDescription := answer
  startPlayer := none
  closeUDP := none
  closePeerConnection := none

/-- The RTP wire format restricted to packets with the fixed header of twelve bytes (no CSRC,
no extension, no padding). -/
def plainRtp : RtpLib where
  unmarshal
    | b0 :: b1 :: s0 :: s1 :: t0 :: t1 :: t2 :: t3 :: r0 :: r1 :: r2 :: r3 :: payload =>
      if b0 % 64 ≠ 0 then .error (.foreign (ascii "unsupported header"))
      else
        .ok ⟨⟨b0 / 64, false, false, decide (128 ≤ b1), b1 % 128, s0 * 256 + s1,
          ((t0 * 256 + t1) * 256 + t2) * 256 + t3, ((r0 * 256 + r1) * 256 + r2) * 256 + r3, [], 0,
          []⟩, payload, 0⟩
    | _ => .error (.foreign (ascii "RTP header size insufficient"))
  marshal p :=
    [p.Header.Version % 4 * 64, (if p.Header.Marker then 128 else 0) + p.Header.PayloadType % 128,
      p.Header.SequenceNumber / 256 % 256, p.Header.SequenceNumber % 256,
      p.Header.Timestamp / 16777216 % 256, p.Header.Timestamp / 65536 % 256,
      p.Header.Timestamp / 256 % 256, p.Header.Timestamp % 256,
      p.Header.SSRC / 16777216 % 256, p.Header.SSRC / 65536 % 256, p.Header.SSRC / 256 % 256,
      p.Header.SSRC % 256] ++ p.Payload

/-! ## Lemmas: UTF-8 -/

theorem decodeRune_bad (b : Nat) (rest : List Nat) (hb : 0x80 ≤ b) (h : b < 0xC2 ∨ 0xF4 < b) :
    decodeRune (b :: rest) = (runeError, 1) := by
  have h0 : ¬ b < 128 := by omega
  simp [decodeRune, h0, h]

theorem decodeRune_single (b : Nat) (hb : 0x80 ≤ b) : decodeRune [b] = (runeError, 1) := by
  have h0 : ¬ b < 128 := by omega
  simp [decodeRune, h0]

theorem decodeRune_two (b b1 : Nat) (t : List Nat) (h1 : 0xC2 ≤ b) (h2 : b < 0xE0) :
    decodeRune (b :: b1 :: t) =
      if b1 < 0x80 ∨ 0xBF < b1 then (runeError, 1) else (b % 32 * 64 + b1 % 64, 2) := by
  have h0 : ¬ b < 128 := by omega
  have h3 : ¬ (b < 194 ∨ 244 < b) := by omega
  have h4 : b < 224 := by omega
  have h5 : ¬ b = 224 := by omega
  have h6 : ¬ b = 240 := by omega
  have h7 : ¬ b = 237 := by omega
  have h8 : ¬ b = 244 := by omega
  simp [decodeRune, h0, h3, h4, h5, h6, h7, h8]

theorem decodeRune_three (b b1 b2 : Nat) (t : List Nat) (h1 : 0xE0 ≤ b) (h2 : b < 0xF0) :
    decodeRune (b :: b1 :: b2 :: t) =
      if b1 < (if b = 0xE0 then 0xA0 else 0x80) ∨ (if b = 0xED then 0x9F else 0xBF) < b1 then
        (runeError, 1)
      else if b2 < 0x80 ∨ 0xBF < b2 then (runeError, 1)
      else (b % 16 * 4096 + b1 % 64 * 64 + b2 % 64, 3) := by
  have h0 : ¬ b < 128 := by omega
  have h3 : ¬ (b < 194 ∨ 244 < b) := by omega
  have h4 : ¬ b < 224 := by omega
  have h5 : b < 240 := by omega
  have h6 : ¬ b = 240 := by omega
  have h8 : ¬ b = 244 := by omega
  simp [decodeRune, h0, h3, h4, h5, h6, h8]

theorem decodeRune_three_short (b b1 : Nat) (h1 : 0xE0 ≤ b) (h2 : b ≤ 0xF4) :
    decodeRune [b, b1] = (runeError, 1) := by
  have h0 : ¬ b < 128 := by omega
  have h3 : ¬ (b < 194 ∨ 244 < b) := by omega
  have h4 : ¬ b < 224 := by omega
  simp [decodeRune, h0, h3, h4]
  split_ifs <;> simp

theorem decodeRune_four (b b1 b2 b3 : Nat) (t : List Nat) (h1 : 0xF0 ≤ b) (h2 : b ≤ 0xF4) :
    decodeRune (b :: b1 :: b2 :: b3 :: t) =
      if b1 < (if b = 0xF0 then 0x90 else 0x80) ∨ (if b = 0xF4 then 0x8F else 0xBF) < b1 then
        (runeError, 1)
      else if b2 < 0x80 ∨ 0xBF < b2 then (runeError, 1)
      else if b3 < 0x80 ∨ 0xBF < b3 then (runeError, 1)
      else (b % 8 * 262144 + b1 % 64 * 4096 + b2 % 64 * 64 + b3 % 64, 4) := by
  have h0 : ¬ b < 128 := by omega
  have h3 : ¬ (b < 194 ∨ 244 < b) := by omega
  have h4 : ¬ b < 224 := by omega
  have h5 : ¬ b < 240 := by omega
  have h6 : ¬ b = 224 := by omega
  have h8 : ¬ b = 237 := by omega
  simp [decodeRune, h0, h3, h4, h5, h6, h8]

theorem decodeRune_four_short (b b1 b2 : Nat) (h1 : 0xF0 ≤ b) (h2 : b ≤ 0xF4) :
    decodeRune [b, b1, b2] = (runeError, 1) := by
  have h0 : ¬ b < 128 := by omega
  have h3 : ¬ (b < 194 ∨ 244 < b) := by omega
  have h4 : ¬ b < 224 := by omega
  have h5 : ¬ b < 240 := by omega
  simp [decodeRune, h0, h3, h4, h5]

/-- The shapes of a multi-byte sequence that `decodeRune` accepts. -/
theorem decodeRune_valid (b : Nat) (rest : List Nat) (hb : 0x80 ≤ b)
    (h : ¬ ((decodeRune (b :: rest)).1 = runeError ∧ (decodeRune (b :: rest)).2 = 1)) :
    (∃ b1 t, rest = b1 :: t ∧ 0xC2 ≤ b ∧ b ≤ 0xDF ∧ 0x80 ≤ b1 ∧ b1 ≤ 0xBF ∧
      decodeRune (b :: rest) = (b % 32 * 64 + b1 % 64, 2)) ∨
    (∃ b1 b2 t, rest = b1 :: b2 :: t ∧ 0xE0 ≤ b ∧ b ≤ 0xEF ∧ 0x80 ≤ b1 ∧ b1 ≤ 0xBF ∧
      (b = 0xE0 → 0xA0 ≤ b1) ∧ (b = 0xED → b1 ≤ 0x9F) ∧ 0x80 ≤ b2 ∧ b2 ≤ 0xBF ∧
      decodeRune (b :: rest) = (b % 16 * 4096 + b1 % 64 * 64 + b2 % 64, 3)) ∨
    (∃ b1 b2 b3 t, rest = b1 :: b2 :: b3 :: t ∧ 0xF0 ≤ b ∧ b ≤ 0xF4 ∧ 0x80 ≤ b1 ∧ b1 ≤ 0xBF ∧
      (b = 0xF0 → 0x90 ≤ b1) ∧ (b = 0xF4 → b1 ≤ 0x8F) ∧ 0x80 ≤ b2 ∧ b2 ≤ 0xBF ∧
      0x80 ≤ b3 ∧ b3 ≤ 0xBF ∧
      decodeRune (b :: rest) = (b % 8 * 262144 + b1 % 64 * 4096 + b2 % 64 * 64 + b3 % 64, 4)) := by
  by_cases hbad : b < 0xC2 ∨ 0xF4 < b
  · exact absurd (by rw [decodeRune_bad b rest hb hbad]; exact ⟨rfl, rfl⟩) h
  by_cases h2 : b < 0xE0
  · left
    rcases rest with _ | ⟨b1, t⟩
    · exact absurd (by rw [decodeRune_single b hb]; exact ⟨rfl, rfl⟩) h
    rw [decodeRune_two b b1 t (by omega) h2] at h ⊢
    by_cases hc : b1 < 0x80 ∨ 0xBF < b1
    · simp [hc] at h
    · rw [if_neg hc]
      exact ⟨b1, t, rfl, by omega, by omega, by omega, by omega, rfl⟩
  by_cases h3 : b < 0xF0
  · right; left
    rcases rest with _ | ⟨b1, _ | ⟨b2, t⟩⟩
    · exact absurd (by rw [decodeRune_single b hb]; exact ⟨rfl, rfl⟩) h
    · exact absurd (by rw [decodeRune_three_short b b1 (by omega) (by omega)]; exact ⟨rfl, rfl⟩) h
    rw [decodeRune_three b b1 b2 t (by omega) h3] at h ⊢
    by_cases hc : b1 < (if b = 0xE0 then 0xA0 else 0x80) ∨ (if b = 0xED then 0x9F else 0xBF) < b1
    · simp [hc] at h
    rw [if_neg hc] at h ⊢
    by_cases hd : b2 < 0x80 ∨ 0xBF < b2
    · simp [hd] at h
    rw [if_neg hd]
    refine ⟨b1, b2, t, rfl, by omega, by omega, ?_, ?_, ?_, ?_, by omega, by omega, rfl⟩
    all_goals split_ifs at hc <;> omega
  · right; right
    rcases rest with _ | ⟨b1, _ | ⟨b2, _ | ⟨b3, t⟩⟩⟩
    · exact absurd (by rw [decodeRune_single b hb]; exact ⟨rfl, rfl⟩) h
    · exact absurd (by rw [decodeRune_three_short b b1 (by omega) (by omega)]; exact ⟨rfl, rfl⟩) h
    · exact absurd (by rw [decodeRune_four_short b b1 b2 (by omega) (by omega)]; exact ⟨rfl, rfl⟩) h
    rw [decodeRune_four b b1 b2 b3 t (by omega) (by omega)] at h ⊢
    by_cases hc : b1 < (if b = 0xF0 then 0x90 else 0x80) ∨ (if b = 0xF4 then 0x8F else 0xBF) < b1
    · simp [hc] at h
    rw [if_neg hc] at h ⊢
    by_cases hd : b2 < 0x80 ∨ 0xBF < b2
    · simp [hd] at h
    rw [if_neg hd] at h ⊢
    by_cases he : b3 < 0x80 ∨ 0xBF < b3
    · simp [he] at h
    rw [if_neg he]
    refine ⟨b1, b2, b3, t, rfl, by omega, by omega, ?_, ?_, ?_, ?_, by omega, by omega, by omega,
      by omega, rfl⟩
    all_goals split_ifs at hc <;> omega


/-- What follows an accepted multi-byte sequence does not change its decoding. -/
theorem decodeRune_take_append (b : Nat) (rest : List Nat) (hb : 0x80 ≤ b)
    (h : ¬ ((decodeRune (b :: rest)).1 = runeError ∧ (decodeRune (b :: rest)).2 = 1))
    (y : List Nat) :
    decodeRune ((b :: rest).take (decodeRune (b :: rest)).2 ++ y) = decodeRune (b :: rest) := by
  rcases decodeRune_valid b rest hb h with ⟨b1, t, rfl, h1, h2, h3, h4, hd⟩ |
    ⟨b1, b2, t, rfl, h1, h2, h3, h4, h5, h6, h7, h8, hd⟩ |
    ⟨b1, b2, b3, t, rfl, h1, h2, h3, h4, h5, h6, h7, h8, h9, h10, hd⟩
  · rw [hd]
    simp only [List.take_succ_cons, List.take_zero, List.cons_append, List.nil_append]
    rw [decodeRune_two b b1 y h1 (by omega), if_neg (by omega)]
  · rw [hd]
    simp only [List.take_succ_cons, List.take_zero, List.cons_append, List.nil_append]
    rw [decodeRune_three b b1 b2 y h1 (by omega), if_neg, if_neg (by omega)]
    split_ifs <;> omega
  · rw [hd]
    simp only [List.take_succ_cons, List.take_zero, List.cons_append, List.nil_append]
    rw [decodeRune_four b b1 b2 b3 y h1 (by omega), if_neg, if_neg (by omega), if_neg (by omega)]
    split_ifs <;> omega

/-- An accepted multi-byte sequence is the encoding of its rune. -/
theorem encodeRune_decodeRune (b : Nat) (rest : List Nat) (hb : 0x80 ≤ b)
    (h : ¬ ((decodeRune (b :: rest)).1 = runeError ∧ (decodeRune (b :: rest)).2 = 1)) :
    encodeRune (decodeRune (b :: rest)).1 = (b :: rest).take (decodeRune (b :: rest)).2 := by
  rcases decodeRune_valid b rest hb h with ⟨b1, t, rfl, h1, h2, h3, h4, hd⟩ |
    ⟨b1, b2, t, rfl, h1, h2, h3, h4, h5, h6, h7, h8, hd⟩ |
    ⟨b1, b2, b3, t, rfl, h1, h2, h3, h4, h5, h6, h7, h8, h9, h10, hd⟩
  · rw [hd]
    simp only [List.take_succ_cons, List.take_zero, encodeRune]
    rw [if_neg (by omega), if_pos (by omega)]
    congr 1
    · omega
    · congr 1; omega
  · rw [hd]
    simp only [List.take_succ_cons, List.take_zero, encodeRune]
    have e5 := h5
    have e6 := h6
    rw [if_neg (by omega), if_neg (by omega), if_neg (by omega), if_pos (by omega)]
    congr 1
    · omega
    · congr 1
      · omega
      · congr 1; omega
  · rw [hd]
    simp only [List.take_succ_cons, List.take_zero, encodeRune]
    rw [if_neg (by omega), if_neg (by omega), if_neg (by omega), if_neg (by omega)]
    congr 1
    · omega
    · congr 1
      · omega
      · congr 1
        · omega
        · congr 1; omega

/-- The width of an accepted multi-byte sequence, and its bytes. -/
theorem decodeRune_width (b : Nat) (rest : List Nat) (hb : 0x80 ≤ b)
    (h : ¬ ((decodeRune (b :: rest)).1 = runeError ∧ (decodeRune (b :: rest)).2 = 1)) :
    2 ≤ (decodeRune (b :: rest)).2 ∧ (decodeRune (b :: rest)).2 ≤ (b :: rest).length ∧
      ∀ c ∈ (b :: rest).take (decodeRune (b :: rest)).2, 0x80 ≤ c ∧ c < 0x100 := by
  rcases decodeRune_valid b rest hb h with ⟨b1, t, rfl, h1, h2, h3, h4, hd⟩ |
    ⟨b1, b2, t, rfl, h1, h2, h3, h4, h5, h6, h7, h8, hd⟩ |
    ⟨b1, b2, b3, t, rfl, h1, h2, h3, h4, h5, h6, h7, h8, h9, h10, hd⟩
  all_goals
    rw [hd]
    refine ⟨by simp, by simp, ?_⟩
    intro c hc
    simp only [List.take_succ_cons, List.take_zero, List.mem_cons, List.mem_nil_iff, or_false] at hc
    omega

/-! ## Lemmas: base64 -/

theorem b64Val_b64Char (v : Nat) (h : v < 64) : b64Val (b64Char v) = some v := by
  unfold b64Char b64Val
  split_ifs <;> first | omega | (congr 1; omega)

theorem b64Decode_encode_aux (total : Nat) : ∀ (bs : List Nat), (∀ b ∈ bs, b < 256) →
    ∀ si out, b64DecodeAux total (b64Encode bs) si [] out = .ok (out ++ bs) := by
  intro bs
  induction bs using b64Encode.induct with
  | case1 a b c rest ih =>
    intro h si out
    have ha : a < 256 := h a (by simp)
    have hb : b < 256 := h b (by simp)
    have hc : c < 256 := h c (by simp)
    have hr : ∀ x ∈ rest, x < 256 := fun x hx => h x (by simp [hx])
    simp only [b64Encode, b64DecodeAux]
    rw [b64Val_b64Char _ (by omega), b64Val_b64Char _ (by omega), b64Val_b64Char _ (by omega),
      b64Val_b64Char _ (by omega)]
    simp
    rw [ih hr]
    simp [quantumBytes]
    omega
  | case2 a b =>
    intro h si out
    have ha : a < 256 := h a (by simp)
    have hb : b < 256 := h b (by simp)
    simp only [b64Encode, b64DecodeAux]
    rw [b64Val_b64Char _ (by omega), b64Val_b64Char _ (by omega), b64Val_b64Char _ (by omega)]
    simp [b64Val, skipNewlines, quantumBytes]
    omega
  | case3 a =>
    intro h si out
    have ha : a < 256 := h a (by simp)
    simp only [b64Encode, b64DecodeAux]
    rw [b64Val_b64Char _ (by omega), b64Val_b64Char _ (by omega)]
    simp [b64Val, skipNewlines, quantumBytes]
    omega
  | case4 => intro _ si out; simp [b64Encode, b64DecodeAux]

theorem b64Decode_encode (bs : List Nat) (h : ∀ b ∈ bs, b < 256) :
    b64Decode (b64Encode bs) = .ok bs := by
  simpa [b64Decode] using b64Decode_encode_aux _ bs h 0 []

/-! ## Lemmas: JSON strings -/

@[simp] theorem Scan.bind_done {α β : Type} (a : α) (r : List Nat) (f : α → List Nat → Scan β) :
    (Scan.done a r).bind f = f a r := rfl

theorem isHex_hexDigit (n : Nat) (h : n < 16) : isHex (hexDigit n) = true := by
  unfold isHex hexDigit
  split_ifs <;> simp <;> omega

theorem hexVal_hexDigit (n : Nat) (h : n < 16) : hexVal (hexDigit n) = n := by
  unfold hexVal hexDigit
  split_ifs <;> omega

theorem scanString_plain (f c : Nat) (l : List Nat) (h1 : c ≠ 0x22) (h2 : c ≠ 0x5C)
    (h3 : 0x20 ≤ c) :
    scanString (f + 1) (c :: l) = (scanString f l).bind fun body r => .done (c :: body) r := by
  have h4 : ¬ c < 32 := by omega
  simp [scanString, h1, h2, h4]

theorem scanString_esc (f e : Nat) (l : List Nat)
    (he : e = 0x62 ∨ e = 0x66 ∨ e = 0x6E ∨ e = 0x72 ∨ e = 0x74 ∨ e = 0x5C ∨ e = 0x2F ∨ e = 0x22) :
    scanString (f + 1) (0x5C :: e :: l) =
      (scanString f l).bind fun body r => .done (0x5C :: e :: body) r := by
  simp [scanString, he]

theorem scanString_escU (f a b c d : Nat) (l : List Nat) (ha : isHex a = true)
    (hb : isHex b = true) (hc : isHex c = true) (hd : isHex d = true) :
    scanString (f + 1) (0x5C :: 0x75 :: a :: b :: c :: d :: l) =
      (scanString f l).bind fun body r => .done (0x5C :: 0x75 :: a :: b :: c :: d :: body) r := by
  simp [scanString, scanHex, ha, hb, hc, hd]

/-- The scanner reads the text written by `quoteBody` up to the closing quote. -/
theorem scanString_quoteBody : ∀ (fuel : Nat) (s tail : List Nat) (f2 : Nat),
    (quoteBody fuel s).length < f2 →
      scanString f2 (quoteBody fuel s ++ 0x22 :: tail) = .done (quoteBody fuel s) tail := by
  intro fuel
  induction fuel with
  | zero =>
    intro s tail f2 h
    obtain ⟨f, rfl⟩ : ∃ f, f2 = f + 1 := ⟨f2 - 1, by omega⟩
    simp [quoteBody, scanString]
  | succ fuel ih =>
    intro s tail f2 h
    obtain ⟨f, rfl⟩ : ∃ f, f2 = f + 1 := ⟨f2 - 1, by omega⟩
    rcases s with _ | ⟨b, rest⟩
    · simp [quoteBody, scanString]
    simp only [quoteBody] at h ⊢
    by_cases hb : b < 0x80
    · rw [if_pos hb] at h ⊢
      by_cases hs : htmlSafe b = true
      · rw [if_pos hs] at h ⊢
        simp only [htmlSafe, decide_eq_true_eq] at hs
        simp only [List.singleton_append, List.length_cons] at h ⊢
        rw [List.cons_append, scanString_plain f b _ (by omega) (by omega) (by omega),
          ih rest tail f (by omega)]
        rfl
      · rw [if_neg hs] at h ⊢
        unfold escapeByte at h ⊢
        split_ifs at h ⊢ with e1 e2 e3 e4 e5 e6
        all_goals simp only [List.cons_append, List.nil_append, List.length_cons] at h ⊢
        · rw [scanString_esc f b _ (by omega), ih rest tail f (by omega)]; rfl
        · rw [scanString_esc f _ _ (by omega), ih rest tail f (by omega)]; rfl
        · rw [scanString_esc f _ _ (by omega), ih rest tail f (by omega)]; rfl
        · rw [scanString_esc f _ _ (by omega), ih rest tail f (by omega)]; rfl
        · rw [scanString_esc f _ _ (by omega), ih rest tail f (by omega)]; rfl
        · rw [scanString_esc f _ _ (by omega), ih rest tail f (by omega)]; rfl
        · rw [scanString_escU f _ _ _ _ _ (by decide) (by decide)
            (isHex_hexDigit _ (by omega)) (isHex_hexDigit _ (by omega)),
            ih rest tail f (by omega)]
          rfl
    · rw [if_neg hb] at h ⊢
      by_cases hv : (decodeRune (b :: rest)).1 = runeError ∧ (decodeRune (b :: rest)).2 = 1
      · rw [if_pos hv] at h ⊢
        simp only [List.cons_append, List.nil_append, List.length_cons] at h ⊢
        rw [scanString_escU f _ _ _ _ _ (by decide) (by decide) (by decide) (by decide),
          ih rest tail f (by omega)]
        rfl
      · rw [if_neg hv] at h ⊢
        by_cases hl : (decodeRune (b :: rest)).1 = 0x2028 ∨ (decodeRune (b :: rest)).1 = 0x2029
        · rw [if_pos hl] at h ⊢
          simp only [List.cons_append, List.nil_append, List.length_cons] at h ⊢
          rw [scanString_escU f _ _ _ _ _ (by decide) (by decide) (by decide)
            (isHex_hexDigit _ (by omega)), ih _ tail f (by omega)]
          rfl
        · rw [if_neg hl] at h ⊢
          rcases decodeRune_valid b rest (by omega) hv with ⟨b1, t, rfl, h1, h2, h3, h4, hd⟩ |
            ⟨b1, b2, t, rfl, h1, h2, h3, h4, h5, h6, h7, h8, hd⟩ |
            ⟨b1, b2, b3, t, rfl, h1, h2, h3, h4, h5, h6, h7, h8, h9, h10, hd⟩
          · rw [hd] at h ⊢
            simp only [List.take_succ_cons, List.take_zero, List.drop_succ_cons, List.drop_zero,
              List.cons_append, List.nil_append, List.length_cons] at h ⊢
            obtain ⟨g, rfl⟩ : ∃ g, f = g + 1 := ⟨f - 1, by omega⟩
            rw [scanString_plain _ b _ (by omega) (by omega) (by omega),
              scanString_plain _ b1 _ (by omega) (by omega) (by omega), ih _ tail g (by omega)]
            rfl
          · rw [hd] at h ⊢
            simp only [List.take_succ_cons, List.take_zero, List.drop_succ_cons, List.drop_zero,
              List.cons_append, List.nil_append, List.length_cons] at h ⊢
            obtain ⟨g, rfl⟩ : ∃ g, f = g + 2 := ⟨f - 2, by omega⟩
            rw [scanString_plain _ b _ (by omega) (by omega) (by omega),
              scanString_plain _ b1 _ (by omega) (by omega) (by omega),
              scanString_plain _ b2 _ (by omega) (by omega) (by omega), ih _ tail g (by omega)]
            rfl
          · rw [hd] at h ⊢
            simp only [List.take_succ_cons, List.take_zero, List.drop_succ_cons, List.drop_zero,
              List.cons_append, List.nil_append, List.length_cons] at h ⊢
            obtain ⟨g, rfl⟩ : ∃ g, f = g + 3 := ⟨f - 3, by omega⟩
            rw [scanString_plain _ b _ (by omega) (by omega) (by omega),
              scanString_plain _ b1 _ (by omega) (by omega) (by omega),
              scanString_plain _ b2 _ (by omega) (by omega) (by omega),
              scanString_plain _ b3 _ (by omega) (by omega) (by omega), ih _ tail g (by omega)]
            rfl


theorem unquote_plain (f c : Nat) (l : List Nat) (h1 : c ≠ 0x22) (h2 : c ≠ 0x5C)
    (h3 : 0x20 ≤ c) (h4 : c < 0x80) :
    unquote (f + 1) (c :: l) = (unquote f l).map (c :: ·) := by
  have h5 : ¬ c < 32 := by omega
  simp [unquote, h1, h2, h4, h5]

theorem unquote_multi (f c : Nat) (l : List Nat) (h : 0x80 ≤ c) :
    unquote (f + 1) (c :: l) =
      (unquote f ((c :: l).drop (decodeRune (c :: l)).2)).map
        (encodeRune (decodeRune (c :: l)).1 ++ ·) := by
  have h1 : c ≠ 0x22 := by omega
  have h2 : c ≠ 0x5C := by omega
  have h4 : ¬ c < 0x80 := by omega
  have h5 : ¬ c < 32 := by omega
  simp [unquote, h1, h2, h4, h5]

theorem unquote_escU (f a b c d : Nat) (l : List Nat) (ha : isHex a = true)
    (hb : isHex b = true) (hc : isHex c = true) (hd : isHex d = true)
    (hs : ¬ (0xD800 ≤ hexVal a * 4096 + hexVal b * 256 + hexVal c * 16 + hexVal d ∧
      hexVal a * 4096 + hexVal b * 256 + hexVal c * 16 + hexVal d < 0xE000)) :
    unquote (f + 1) (0x5C :: 0x75 :: a :: b :: c :: d :: l) =
      (unquote f l).map
        (encodeRune (hexVal a * 4096 + hexVal b * 256 + hexVal c * 16 + hexVal d) ++ ·) := by
  simp only [unquote, getu4, ha, hb, hc, hd]
  simp [hs]

theorem drop_take_append (k : Nat) (x y : List Nat) (h : k ≤ x.length) :
    (x.take k ++ y).drop k = y := by
  have : (x.take k).length = k := by simp [h]
  rw [List.drop_append_eq_append_drop, this]
  simp [List.drop_eq_nil_of_le, this]

/-- Resolving the escapes of what `quoteBody` wrote gives the string back, coerced to valid
UTF-8. -/
theorem unquote_quoteBody : ∀ (fuel : Nat) (s : List Nat) (f2 : Nat),
    (quoteBody fuel s).length ≤ f2 →
      unquote f2 (quoteBody fuel s) = some (coerceUTF8Aux fuel s) := by
  intro fuel
  induction fuel with
  | zero =>
    intro s f2 _
    cases f2 <;> simp [quoteBody, unquote, coerceUTF8Aux]
  | succ fuel ih =>
    intro s f2 h
    rcases s with _ | ⟨b, rest⟩
    · cases f2 <;> simp [quoteBody, unquote, coerceUTF8Aux]
    simp only [quoteBody, coerceUTF8Aux] at h ⊢
    by_cases hb : b < 0x80
    · rw [if_pos hb] at h ⊢
      rw [if_pos hb]
      by_cases hs : htmlSafe b = true
      · rw [if_pos hs] at h ⊢
        simp only [htmlSafe, decide_eq_true_eq] at hs
        simp only [List.singleton_append, List.length_cons] at h ⊢
        obtain ⟨f, rfl⟩ : ∃ f, f2 = f + 1 := ⟨f2 - 1, by omega⟩
        rw [unquote_plain f b _ (by omega) (by omega) (by omega) (by omega), ih rest f (by omega)]
        rfl
      · rw [if_neg hs] at h ⊢
        simp only [htmlSafe, decide_eq_true_eq] at hs
        unfold escapeByte at h ⊢
        split_ifs at h ⊢ with e1 e2 e3 e4 e5 e6
        all_goals simp only [List.cons_append, List.nil_append, List.length_cons] at h ⊢
        all_goals obtain ⟨f, rfl⟩ : ∃ f, f2 = f + 1 := ⟨f2 - 1, by omega⟩
        · rcases e1 with rfl | rfl <;> simp [unquote, ih rest f (by omega)]
        · subst e2; simp [unquote, ih rest f (by omega)]
        · subst e3; simp [unquote, ih rest f (by omega)]
        · subst e4; simp [unquote, ih rest f (by omega)]
        · subst e5; simp [unquote, ih rest f (by omega)]
        · subst e6; simp [unquote, ih rest f (by omega)]
        · have hv0 : hexVal 0x30 = 0 := by decide
          have hq : hexVal 48 * 4096 + hexVal 48 * 256 + hexVal (hexDigit (b / 16)) * 16 +
              hexVal (hexDigit (b % 16)) = b := by
            rw [hv0, hexVal_hexDigit _ (by omega), hexVal_hexDigit _ (by omega)]; omega
          rw [unquote_escU f _ _ _ _ _ (by decide) (by decide)
            (isHex_hexDigit _ (by omega)) (isHex_hexDigit _ (by omega)) (by rw [hq]; omega),
            hq, ih rest f (by omega)]
          have : encodeRune b = [b] := by simp [encodeRune]; omega
          rw [this]; rfl
    · rw [if_neg hb] at h ⊢
      rw [if_neg hb]
      by_cases hv : (decodeRune (b :: rest)).1 = runeError ∧ (decodeRune (b :: rest)).2 = 1
      · rw [if_pos hv] at h ⊢
        rw [if_pos hv]
        simp only [List.cons_append, List.nil_append, List.length_cons] at h ⊢
        obtain ⟨f, rfl⟩ : ∃ f, f2 = f + 1 := ⟨f2 - 1, by omega⟩
        rw [unquote_escU f _ _ _ _ _ (by decide) (by decide) (by decide) (by decide) (by decide),
          ih rest f (by omega)]
        rfl
      · rw [if_neg hv] at h ⊢
        rw [if_neg hv]
        have hw := decodeRune_width b rest (by omega) hv
        have he := encodeRune_decodeRune b rest (by omega) hv
        by_cases hl : (decodeRune (b :: rest)).1 = 0x2028 ∨ (decodeRune (b :: rest)).1 = 0x2029
        · rw [if_pos hl] at h ⊢
          simp only [List.cons_append, List.nil_append, List.length_cons] at h ⊢
          obtain ⟨f, rfl⟩ : ∃ f, f2 = f + 1 := ⟨f2 - 1, by omega⟩
          have hq : hexVal 0x32 * 4096 + hexVal 0x30 * 256 + hexVal 0x32 * 16 +
              hexVal (hexDigit ((decodeRune (b :: rest)).1 % 16)) = (decodeRune (b :: rest)).1 := by
            rw [hexVal_hexDigit _ (by omega)]
            have h1 : hexVal 0x32 = 2 := by decide
            have h2 : hexVal 0x30 = 0 := by decide
            rw [h1, h2]; omega
          rw [unquote_escU f _ _ _ _ _ (by decide) (by decide) (by decide)
            (isHex_hexDigit _ (by omega)) (by rw [hq]; omega), hq, ih _ f (by omega), he]
          rfl
        · rw [if_neg hl] at h ⊢
          have hlen : (decodeRune (b :: rest)).2 ≤ rest.length + 1 := by simpa using hw.2.1
          have h2 : ((b :: rest).take (decodeRune (b :: rest)).2).length =
              (decodeRune (b :: rest)).2 := by simp [hlen]
          rw [List.length_append, h2] at h
          obtain ⟨f, rfl⟩ : ∃ f, f2 = f + 1 := ⟨f2 - 1, by have := hw.1; omega⟩
          have hshape : ∀ y, (b :: rest).take (decodeRune (b :: rest)).2 ++ y =
              b :: ((rest.take ((decodeRune (b :: rest)).2 - 1)) ++ y) := by
            intro y
            obtain ⟨k, hk⟩ : ∃ k, (decodeRune (b :: rest)).2 = k + 1 :=
              ⟨(decodeRune (b :: rest)).2 - 1, by omega⟩
            rw [hk]; simp
          rw [hshape, unquote_multi f b _ (by omega), ← hshape,
            decodeRune_take_append b rest (by omega) hv, drop_take_append _ _ _ hw.2.1, he,
            ih _ f]
          · rfl
          · have := hw.1; omega


/-- A valid string is left as it is by the coercion. -/
theorem coerceUTF8Aux_valid : ∀ (fuel : Nat) (s : List Nat), s.length ≤ fuel →
    validUTF8Aux fuel s = true → coerceUTF8Aux fuel s = s := by
  intro fuel
  induction fuel with
  | zero =>
    intro s h _
    have : s = [] := List.length_eq_zero.mp (by omega)
    subst this; rfl
  | succ fuel ih =>
    intro s h hv
    rcases s with _ | ⟨b, rest⟩
    · rfl
    simp only [validUTF8Aux, coerceUTF8Aux] at hv ⊢
    by_cases hb : b < 0x80
    · rw [if_pos hb]
      have hd : decodeRune (b :: rest) = (b, 1) := by simp [decodeRune, hb]
      rw [hd] at hv
      simp only [List.drop_succ_cons, List.drop_zero] at hv
      have hv2 : validUTF8Aux fuel rest = true := by
        split_ifs at hv
        exact hv
      rw [ih rest (by simpa using h) hv2]
    · rw [if_neg hb]
      by_cases hbad : (decodeRune (b :: rest)).1 = runeError ∧ (decodeRune (b :: rest)).2 = 1
      · rw [if_pos hbad] at hv; exact absurd hv (by simp)
      · rw [if_neg hbad] at hv ⊢
        have hw := decodeRune_width b rest (by omega) hbad
        rw [ih _ (by simp only [List.length_drop, List.length_cons] at h ⊢; omega) hv]
        exact List.take_append_drop _ _

theorem coerceUTF8_valid (s : GoString) (h : validUTF8 s = true) : coerceUTF8 s = s :=
  coerceUTF8Aux_valid s.length s (Nat.le_refl _) h

theorem hexDigit_range (n : Nat) (h : n < 16) : 0x20 ≤ hexDigit n ∧ hexDigit n < 0x80 := by
  unfold hexDigit; split_ifs <;> omega

/-- The bytes that `quoteBody` writes: no control character, and proper bytes. -/
theorem quoteBody_bytes : ∀ (fuel : Nat) (s : List Nat), ∀ c ∈ quoteBody fuel s,
    0x20 ≤ c ∧ c < 0x100 := by
  intro fuel
  induction fuel with
  | zero => intro s c hc; simp [quoteBody] at hc
  | succ fuel ih =>
    intro s c hc
    rcases s with _ | ⟨b, rest⟩
    · simp [quoteBody] at hc
    simp only [quoteBody] at hc
    by_cases hb : b < 0x80
    · rw [if_pos hb] at hc
      rcases List.mem_append.mp hc with h1 | h1
      · by_cases hs : htmlSafe b = true
        · rw [if_pos hs] at h1
          simp only [htmlSafe, decide_eq_true_eq] at hs
          simp only [List.mem_singleton] at h1
          omega
        · rw [if_neg hs] at h1
          have r1 := hexDigit_range (b / 16) (by omega)
          have r2 := hexDigit_range (b % 16) (by omega)
          unfold escapeByte at h1
          split_ifs at h1 <;>
            simp only [List.mem_cons, List.mem_singleton, List.mem_nil_iff, or_false] at h1 <;>
            omega
      · exact ih _ c h1
    · rw [if_neg hb] at hc
      by_cases hv : (decodeRune (b :: rest)).1 = runeError ∧ (decodeRune (b :: rest)).2 = 1
      · rw [if_pos hv] at hc
        rcases List.mem_append.mp hc with h1 | h1
        · simp only [List.mem_cons, List.mem_singleton, List.mem_nil_iff, or_false] at h1
          omega
        · exact ih _ c h1
      · rw [if_neg hv] at hc
        by_cases hl : (decodeRune (b :: rest)).1 = 0x2028 ∨ (decodeRune (b :: rest)).1 = 0x2029
        · rw [if_pos hl] at hc
          rcases List.mem_append.mp hc with h1 | h1
          · have r2 := hexDigit_range ((decodeRune (b :: rest)).1 % 16) (by omega)
            simp only [List.mem_cons, List.mem_singleton, List.mem_nil_iff, or_false] at h1
            omega
          · exact ih _ c h1
        · rw [if_neg hl] at hc
          rcases List.mem_append.mp hc with h1 | h1
          · have := (decodeRune_width b rest (by omega) hv).2.2 c h1
            omega
          · exact ih _ c h1

/-! ## Lemmas: objects of two string members -/

theorem skipSpace_cons (c : Nat) (l : List Nat) (h : isSpace c = false) :
    skipSpace (c :: l) = c :: l := by
  simp [skipSpace, h]

/-- The scanner reads a string literal written by `appendString` and gives the string back,
coerced to valid UTF-8. -/
theorem scanString_appendString (s tail : List Nat) :
    (scanString ((quoteBody s.length s ++ 0x22 :: tail).length + 1)
        (quoteBody s.length s ++ 0x22 :: tail)).bind (fun raw r =>
      match unquote raw.length raw with
      | some t => Scan.done (JKind.string t) r
      | none => Scan.fuel) = .done (.string (coerceUTF8 s)) tail := by
  rw [scanString_quoteBody s.length s tail _ (by simp; omega)]
  simp only [Scan.bind_done]
  rw [unquote_quoteBody s.length s _ (Nat.le_refl _)]
  rfl

theorem scanValue_appendString (f depth : Nat) (s tail : List Nat) :
    scanValue (f + 1) depth (appendString s ++ tail) = .done (.string (coerceUTF8 s)) tail := by
  have hshape : appendString s ++ tail = 0x22 :: (quoteBody s.length s ++ 0x22 :: tail) := by
    simp [appendString]
  rw [hshape]
  simp only [scanValue]
  rw [skipSpace_cons _ _ (by decide)]
  simp only [show ¬ ((0x22 : Nat) = 0x7B) by decide, show ¬ ((0x22 : Nat) = 0x5B) by decide,
    if_false, if_true]
  exact scanString_appendString s tail

/-- A member whose key and value were written by `appendString`, up to the byte `sep` that
follows it. -/
theorem scanMembers_member (f depth : Nat) (k s : List Nat) (sep : Nat) (more : List Nat) :
    scanMembers (f + 2) depth (appendString k ++ 0x3A :: (appendString s ++ sep :: more)) =
      if isSpace sep then
        match skipSpace more with
        | [] => .eof none
        | c2 :: r4 =>
          if c2 = 0x2C then
            (scanMembers (f + 1) depth r4).bind fun ms r5 =>
              .done ((coerceUTF8 k, .string (coerceUTF8 s)) :: ms) r5
          else if c2 = 0x7D then .done [(coerceUTF8 k, .string (coerceUTF8 s))] r4
          else .fail c2 "after object key:value pair"
      else if sep = 0x2C then
        (scanMembers (f + 1) depth more).bind fun ms r5 =>
          .done ((coerceUTF8 k, .string (coerceUTF8 s)) :: ms) r5
      else if sep = 0x7D then .done [(coerceUTF8 k, .string (coerceUTF8 s))] more
      else .fail sep "after object key:value pair" := by
  have hshape : appendString k ++ 0x3A :: (appendString s ++ sep :: more) =
      0x22 :: (quoteBody k.length k ++ 0x22 :: 0x3A :: (appendString s ++ sep :: more)) := by
    simp [appendString]
  rw [hshape]
  simp only [scanMembers]
  rw [skipSpace_cons _ _ (by decide)]
  simp only [ne_eq, not_true_eq_false, if_false]
  rw [scanString_quoteBody k.length k _ _ (by simp; omega)]
  simp only [Scan.bind_done]
  rw [unquote_quoteBody k.length k _ (Nat.le_refl _)]
  simp only []
  rw [skipSpace_cons _ _ (by decide)]
  simp only [ne_eq, not_true_eq_false, if_false]
  rw [scanValue_appendString]
  simp only [Scan.bind_done]
  by_cases hsp : isSpace sep = true
  · rw [if_pos hsp]
    simp only [skipSpace, hsp, if_true]
    rfl
  · rw [if_neg hsp]
    simp only [Bool.not_eq_true] at hsp
    rw [skipSpace_cons _ _ hsp]
    rfl

/-- An object of two members written with `appendString`, as the scanner reads it. -/
theorem scanTop_object2 (k1 s1 k2 s2 tail : List Nat) :
    scanTop (0x7B :: (appendString k1 ++ 0x3A :: (appendString s1 ++ 0x2C ::
      (appendString k2 ++ 0x3A :: (appendString s2 ++ 0x7D :: tail))))) =
      .done (.object [(coerceUTF8 k1, .string (coerceUTF8 s1)),
        (coerceUTF8 k2, .string (coerceUTF8 s2))]) tail := by
  unfold scanTop
  rw [skipSpace_cons _ _ (by decide)]
  simp only [if_true]
  obtain ⟨g, hg⟩ : ∃ g, 3 * (0x7B :: (appendString k1 ++ 0x3A :: (appendString s1 ++ 0x2C ::
      (appendString k2 ++ 0x3A :: (appendString s2 ++ 0x7D :: tail))))).length + 3 = g + 4 :=
    ⟨3 * (0x7B :: (appendString k1 ++ 0x3A :: (appendString s1 ++ 0x2C ::
      (appendString k2 ++ 0x3A :: (appendString s2 ++ 0x7D :: tail))))).length - 1, by
        simp only [List.length_cons]; omega⟩
  rw [hg]
  simp only [scanObject]
  have hk : appendString k1 ++ 0x3A :: (appendString s1 ++ 0x2C ::
      (appendString k2 ++ 0x3A :: (appendString s2 ++ 0x7D :: tail))) =
      0x22 :: (quoteBody k1.length k1 ++ 0x22 :: 0x3A :: (appendString s1 ++ 0x2C ::
      (appendString k2 ++ 0x3A :: (appendString s2 ++ 0x7D :: tail)))) := by
    simp [appendString]
  rw [hk, skipSpace_cons _ _ (by decide)]
  simp only [show ¬ ((0x22 : Nat) = 0x7D) by decide, if_false]
  rw [← hk, scanMembers_member (g + 1) 1 k1 s1 0x2C, if_neg (by decide), if_pos rfl,
    scanMembers_member g 1 k2 s2 0x7D, if_neg (by decide), if_neg (by decide), if_pos rfl]
  rfl

theorem marshalCmd_shape (c : Cmd) :
    marshalCmd c = 0x7B :: (appendString (ascii "name") ++ 0x3A :: (appendString c.Name ++ 0x2C ::
      (appendString (ascii "data") ++ 0x3A :: (appendString c.Data ++ 0x7D :: [])))) := by
  have h1 : ascii "\x7b\"name\":" = 0x7B :: (appendString (ascii "name") ++ [0x3A]) := by decide
  have h2 : ascii ",\"data\":" = 0x2C :: (appendString (ascii "data") ++ [0x3A]) := by decide
  have h3 : ascii "\x7d" = [0x7D] := by decide
  simp only [marshalCmd, h1, h2, h3, List.cons_append, List.append_assoc, List.nil_append,
    List.singleton_append]

theorem marshalSD_shape (sd : SessionDescription) :
    marshalSD sd = 0x7B :: (appendString (ascii "type") ++ 0x3A ::
      (appendString (sdpTypeString sd.Typ) ++ 0x2C ::
      (appendString (ascii "sdp") ++ 0x3A :: (appendString sd.SDP ++ 0x7D :: [])))) := by
  have h1 : ascii "\x7b\"type\":" = 0x7B :: (appendString (ascii "type") ++ [0x3A]) := by decide
  have h2 : ascii ",\"sdp\":" = 0x2C :: (appendString (ascii "sdp") ++ [0x3A]) := by decide
  have h3 : ascii "\x7d" = [0x7D] := by decide
  simp only [marshalSD, h1, h2, h3, List.cons_append, List.append_assoc, List.nil_append,
    List.singleton_append]

/-- What `json.Unmarshal` makes of the text that `json.Marshal` wrote for a `Cmd`: the same
`Cmd` with both strings coerced to valid UTF-8, and no error. -/
theorem unmarshalCmd_marshalCmd (c v : Cmd) :
    unmarshalCmd (marshalCmd c) v = (⟨coerceUTF8 c.Name, coerceUTF8 c.Data⟩, none) := by
  have hn : coerceUTF8 (ascii "name") = ascii "name" := by decide
  have hd : coerceUTF8 (ascii "data") = ascii "data" := by decide
  have k1 : keyIs (ascii "name") "name" = true := by decide
  have k2 : keyIs (ascii "data") "name" = false := by decide
  have k3 : keyIs (ascii "data") "data" = true := by decide
  unfold unmarshalCmd parseDocument
  rw [marshalCmd_shape, scanTop_object2, hn, hd]
  simp only [skipSpace, decodeCmd, decodeMembers, cmdStep, k1, k2, k3, storeString, if_true,
    Bool.false_eq_true, if_false]

/-! ## Lemmas: the text of the structs -/


theorem appendString_bytes (s : List Nat) : ∀ c ∈ appendString s, c < 0x100 ∧ c ≠ 10 := by
  intro c hc
  simp only [appendString, List.mem_cons, List.mem_append, List.mem_singleton,
    List.mem_nil_iff, or_false] at hc
  rcases hc with rfl | h | rfl
  · decide
  · have := quoteBody_bytes _ _ c h; omega
  · decide

/-- The text of a `Cmd` holds proper bytes and no newline. -/
theorem marshalCmd_bytes (cmd : Cmd) : ∀ c ∈ marshalCmd cmd, c < 0x100 ∧ c ≠ 10 := by
  intro c hc
  rw [marshalCmd_shape] at hc
  simp only [List.mem_cons, List.mem_append, List.mem_nil_iff, or_false] at hc
  rcases hc with rfl | h | rfl | h | rfl | h | rfl | h | rfl
  all_goals first | decide | exact appendString_bytes _ c h

/-- The text of a session description holds proper bytes. -/
theorem marshalSD_bytes (sd : SessionDescription) : ∀ c ∈ marshalSD sd, c < 0x100 := by
  intro c hc
  rw [marshalSD_shape] at hc
  simp only [List.mem_cons, List.mem_append, List.mem_nil_iff, or_false] at hc
  rcases hc with rfl | h | rfl | h | rfl | h | rfl | h | rfl
  all_goals first | decide | exact (appendString_bytes _ c h).1

/-- What `json.Unmarshal` makes of the text that `json.Marshal` wrote for a session
description of a known type. -/
theorem unmarshalSD_marshalSD (sd v : SessionDescription) (h1 : 1 ≤ sd.Typ) (h4 : sd.Typ ≤ 4) :
    unmarshalSD (marshalSD sd) v = (⟨sd.Typ, coerceUTF8 sd.SDP⟩, none) := by
  have hn : coerceUTF8 (ascii "type") = ascii "type" := by decide
  have hd : coerceUTF8 (ascii "sdp") = ascii "sdp" := by decide
  have k1 : keyIs (ascii "type") "type" = true := by decide
  have k2 : keyIs (ascii "sdp") "type" = false := by decide
  have k3 : keyIs (ascii "sdp") "sdp" = true := by decide
  have ht : sdpTypeOfName (coerceUTF8 (sdpTypeString sd.Typ)) = some sd.Typ := by
    obtain ⟨t, s⟩ := sd
    simp only at h1 h4 ⊢
    interval_cases t <;> decide
  unfold unmarshalSD parseDocument
  rw [marshalSD_shape, scanTop_object2, hn, hd]
  simp only [skipSpace, decodeMembers, sdStep, k1, k2, k3, storeString, storeSDPType, ht,
    if_true, Bool.false_eq_true, if_false]

/-- The edge gets back the session description that the gateway encoded. -/
theorem decode64_encode64 (sd v : SessionDescription) (h1 : 1 ≤ sd.Typ) (h4 : sd.Typ ≤ 4) :
    decode64 (encode64 sd) v = (⟨sd.Typ, coerceUTF8 sd.SDP⟩, none) := by
  unfold decode64 encode64
  rw [b64Decode_encode _ (marshalSD_bytes sd)]
  exact unmarshalSD_marshalSD sd v h1 h4

/-! ## Lemmas: the command channel -/


theorem run_bind {α β : Type} (m : Run α) (f : α → Run β) (w : World) :
    (m >>= f) w = match m w with
      | (.ok a, w1) => f a w1
      | (.error e, w1) => (.error e, w1) := rfl

theorem run_pure {α : Type} (a : α) (w : World) : (pure a : Run α) w = (.ok a, w) := rfl

theorem readValue_marshalCmd (c : Cmd) (rs : List (List Nat)) :
    readValue (marshalCmd c :: rs) [] =
      (.ok (.object [(ascii "name", .string (coerceUTF8 c.Name)),
        (ascii "data", .string (coerceUTF8 c.Data))]), rs) := by
  have hn : coerceUTF8 (ascii "name") = ascii "name" := by decide
  have hd : coerceUTF8 (ascii "data") = ascii "data" := by decide
  have h0 : scanTop [] = .eof none := rfl
  have h1 := scanTop_object2 (ascii "name") c.Name (ascii "data") c.Data []
  rw [← marshalCmd_shape, hn, hd] at h1
  rw [readValue, h0]
  simp only [List.nil_append]
  cases rs with
  | nil => rw [readValue, h1]
  | cons r rs => rw [readValue, h1]; simp [endsByItself]

/-- The function `recv` on a connection whose next `Read` gives the text of a command. -/
theorem recv_marshalCmd (c : Cmd) (rs : List (List Nat)) (ws : List WriteOutcome)
    (tr : List Event) (ds : List Deferred) :
    recv ⟨marshalCmd c :: rs, ws, tr, ds⟩ =
      (.ok (⟨coerceUTF8 c.Name, coerceUTF8 c.Data⟩, none), ⟨rs, ws, tr ++ [.read], ds⟩) := by
  have k1 : keyIs (ascii "name") "name" = true := by decide
  have k2 : keyIs (ascii "data") "name" = false := by decide
  have k3 : keyIs (ascii "data") "data" = true := by decide
  simp only [recv, run_bind, decoderDecode, readValue_marshalCmd, decodeCmd, decodeMembers,
    cmdStep, k1, k2, k3, storeString, if_true, Bool.false_eq_true, if_false, run_pure]

/-- The function `send` on a connection that takes all the bytes. -/
theorem send_full (c : Cmd) (rs : List (List Nat)) (tr : List Event) (ds : List Deferred) :
    send c ⟨rs, [], tr, ds⟩ =
      (.ok none, ⟨rs, [], tr ++ [.write (marshalCmd c) (marshalCmd c).length], ds⟩) := by
  simp [send, run_bind, connWrite, run_pure]

/-- The function `send` on a connection whose `Write`s, as far as they are scripted, take all the bytes. -/
theorem send_replicate (c : Cmd) (n : Nat) (rs : List (List Nat)) (tr : List Event)
    (ds : List Deferred) :
    send c ⟨rs, List.replicate n .full, tr, ds⟩ =
      (.ok none, ⟨rs, List.replicate (n - 1) .full,
        tr ++ [.write (marshalCmd c) (marshalCmd c).length], ds⟩) := by
  cases n with
  | zero => exact send_full c rs tr ds
  | succ n => simp [send, run_bind, connWrite, run_pure, List.replicate_succ]


/-! ## Lemmas: the relay loop -/

theorem isRefused_iff (err : WriteError) :
    err.isRefused = true ↔
      ∃ desc inner, err = .opError desc inner ∧ inner.Error = ascii "write: connection refused" := by
  cases err with
  | opError desc inner =>
    simp only [WriteError.isRefused, decide_eq_true_eq]
    exact ⟨fun h => ⟨desc, inner, rfl, h⟩, fun ⟨_, _, h1, h2⟩ => by cases h1; exact h2⟩
  | other e => simp [WriteError.isRefused]

theorem setPayloadType_fields (p : RtpPacket) (pt : Nat) :
    (p.setPayloadType pt).Header.PayloadType = pt ∧
    (p.setPayloadType pt).Header = { p.Header with PayloadType := pt } ∧
    (p.setPayloadType pt).Payload = p.Payload ∧
    (p.setPayloadType pt).PaddingSize = p.PaddingSize := ⟨rfl, rfl, rfl, rfl⟩

/-- The loop only adds to the record of what was done. -/
theorem relayLoop_trace_extends (lib : RtpLib) (c : udpConn) : ∀ (steps : List TrackStep)
    (b : List Nat) (tr : List RelayEvent), ∃ rest, (relayLoop lib c steps b tr).trace = tr ++ rest := by
  intro steps
  induction steps with
  | nil => intro b tr; exact ⟨[], by simp [relayLoop]⟩
  | cons step steps ih =>
    intro b tr
    simp only [relayLoop]
    cases step.read with
    | error e => exact ⟨[.trackRead], rfl⟩
    | ok data =>
      simp only
      cases lib.unmarshal ((copyInto b data).take (min data.length b.length)) with
      | error e => exact ⟨[.trackRead], rfl⟩
      | ok p =>
        simp only
        cases lib.MarshalTo (p.setPayloadType c.payloadType) (copyInto b data) with
        | error e => exact ⟨[.trackRead], rfl⟩
        | ok r =>
          obtain ⟨n1, b2⟩ := r
          simp only
          cases step.write with
          | none =>
            obtain ⟨rest, h⟩ := ih b2 (tr ++ [.trackRead, .written (b2.take n1)])
            exact ⟨[.trackRead, .written (b2.take n1)] ++ rest, by rw [h, List.append_assoc]⟩
          | some err =>
            simp only
            split_ifs
            · obtain ⟨rest, h⟩ := ih b2 (tr ++ [.trackRead, .writeFailed (b2.take n1)])
              exact ⟨[.trackRead, .writeFailed (b2.take n1)] ++ rest, by rw [h, List.append_assoc]⟩
            · exact ⟨[.trackRead, .writeFailed (b2.take n1)], rfl⟩

/-- A turn of the loop starts with a read of the track. -/
theorem relayLoop_reads_first (lib : RtpLib) (c : udpConn) (step : TrackStep)
    (steps : List TrackStep) (b : List Nat) (tr : List RelayEvent) :
    ∃ rest, (relayLoop lib c (step :: steps) b tr).trace = tr ++ .trackRead :: rest := by
  simp only [relayLoop]
  cases step.read with
  | error e => exact ⟨[], rfl⟩
  | ok data =>
    simp only
    cases lib.unmarshal ((copyInto b data).take (min data.length b.length)) with
    | error e => exact ⟨[], rfl⟩
    | ok p =>
      simp only
      cases lib.MarshalTo (p.setPayloadType c.payloadType) (copyInto b data) with
      | error e => exact ⟨[], rfl⟩
      | ok r =>
        obtain ⟨n1, b2⟩ := r
        simp only
        cases step.write with
        | none =>
          obtain ⟨rest, h⟩ := relayLoop_trace_extends lib c steps b2
            (tr ++ [.trackRead, .written (b2.take n1)])
          exact ⟨.written (b2.take n1) :: rest, by rw [h]; simp⟩
        | some err =>
          simp only
          split_ifs
          · obtain ⟨rest, h⟩ := relayLoop_trace_extends lib c steps b2
              (tr ++ [.trackRead, .writeFailed (b2.take n1)])
            exact ⟨.writeFailed (b2.take n1) :: rest, by rw [h]; simp⟩
          · exact ⟨[.writeFailed (b2.take n1)], rfl⟩


/-! ## Lemmas: a whole session -/

/-- A session in which the libraries, the player and the writes succeed, whatever the name of
the first command. -/
theorem serve_session (env : Env) (name d d2 d3 : GoString)
    (offer answer : SessionDescription) (n : Nat)
    (h1 : env.registerCodec = none) (h2 : env.registerDefaultInterceptors = none)
    (h3 : env.newPeerConnection = none) (h4 : env.addTransceiverFromKind = none)
    (h5 : env.resolveLocalAddr = none) (h6 : env.resolveRemoteAddr = none)
    (h7 : env.dialUDP = none)
    (hoffer : decode64 (coerceUTF8 d) ⟨0, []⟩ = (offer, none))
    (hremote : env.setRemoteDescription offer = none) (hanswer : env.createAnswer = .ok answer)
    (hlocal : env.setLocalDescription answer = none) (hplayer : env.startPlayer = none)
    (hudp : env.closeUDP = none) :
    serve env [marshalCmd ⟨name, d⟩, marshalCmd ⟨ascii "start", d2⟩,
        marshalCmd ⟨ascii "stop", d3⟩] (List.replicate n .full) =
      ⟨none,
        [.write (marshalCmd ⟨ascii "ready", []⟩) (marshalCmd ⟨ascii "ready", []⟩).length,
          .read, .setRemoteDescription offer, .createAnswer, .setLocalDescription answer,
          .gatherComplete,
          .write (marshalCmd ⟨ascii "answer", marshalSD env.localDescription⟩)
            (marshalCmd ⟨ascii "answer", marshalSD env.localDescription⟩).length,
          .read, .startPlayer,
          .write (marshalCmd ⟨ascii "ok", []⟩) (marshalCmd ⟨ascii "ok", []⟩).length,
          .read,
          .write (marshalCmd ⟨ascii "ok", []⟩) (marshalCmd ⟨ascii "ok", []⟩).length,
          .released .killPlayer, .released .closeUDP, .released .closePeerConnection,
          .released .closeConn]⟩ := by
  have c1 : coerceUTF8 (ascii "start") = ascii "start" := by decide
  have c2 : coerceUTF8 (ascii "stop") = ascii "stop" := by decide
  simp only [serve, serveBody, run_bind, deferRelease, panicIf, h1, h2, h3, h4, h5, h6, h7,
    run_pure, send_replicate, recv_marshalCmd, c1, c2, hoffer, emit, hremote, hanswer, hlocal,
    hplayer, ne_eq, not_true_eq_false, if_false, runDefers, hudp, Option.isSome_none,
    Bool.false_eq_true, List.nil_append, List.cons_append, List.append_assoc]

/-! ## Lemmas: valid UTF-8 out of the decoder -/

theorem decodeRune_ascii (b : Nat) (rest : List Nat) (h : b < 0x80) :
    decodeRune (b :: rest) = (b, 1) := by
  simp [decodeRune, h]

/-- The width that `decodeRune` reports for a non-empty input is at least one. -/
theorem decodeRune_width_pos (b : Nat) (rest : List Nat) : 1 ≤ (decodeRune (b :: rest)).2 := by
  by_cases hb : b < 0x80
  · rw [decodeRune_ascii b rest hb]
  · by_cases hv : (decodeRune (b :: rest)).1 = runeError ∧ (decodeRune (b :: rest)).2 = 1
    · omega
    · have := (decodeRune_width b rest (by omega) hv).1
      omega

/-- Fuel beyond the length of the input does not change `validUTF8Aux`. -/
theorem validUTF8Aux_fuel : ∀ (f : Nat) (s : List Nat) (g : Nat), s.length ≤ f → s.length ≤ g →
    validUTF8Aux f s = validUTF8Aux g s := by
  intro f
  induction f with
  | zero =>
    intro s g h _
    have : s = [] := List.length_eq_zero.mp (by omega)
    subst this
    cases g <;> rfl
  | succ f ih =>
    intro s g h hg
    rcases s with _ | ⟨b, rest⟩
    · cases g <;> rfl
    obtain ⟨g, rfl⟩ : ∃ g', g = g' + 1 := ⟨g - 1, by simp at hg; omega⟩
    simp only [validUTF8Aux]
    have hw := decodeRune_width_pos b rest
    have hl : ((b :: rest).drop (decodeRune (b :: rest)).2).length ≤ rest.length := by
      simp only [List.length_drop, List.length_cons]; omega
    simp only [List.length_cons] at h hg
    rw [ih _ g (by omega) (by omega)]

/-- A valid string stays valid with an ASCII byte in front. -/
theorem validUTF8_cons_ascii (c : Nat) (t : List Nat) (hc : c < 0x80)
    (ht : validUTF8 t = true) : validUTF8 (c :: t) = true := by
  unfold validUTF8 at ht ⊢
  simp only [List.length_cons, validUTF8Aux, decodeRune_ascii c t hc, List.drop_succ_cons,
    List.drop_zero]
  rw [if_neg (by simp [runeError]; omega)]
  exact ht

/-- The encoding of a rune above ASCII, as `decodeRune` reads it back. -/
theorem decodeRune_encodeRune (r : Nat) (t : List Nat) (hr : 0x7F < r) :
    2 ≤ (decodeRune (encodeRune r ++ t)).2 ∧
      (decodeRune (encodeRune r ++ t)).2 = (encodeRune r).length := by
  unfold encodeRune
  rw [if_neg (by omega)]
  by_cases h2 : r ≤ 0x7FF
  · rw [if_pos h2]
    simp only [List.cons_append, List.nil_append, List.length_cons, List.length_nil]
    rw [decodeRune_two _ _ _ (by omega) (by omega), if_neg (by omega)]
    simp
  rw [if_neg h2]
  by_cases h3 : 0x10FFFF < r ∨ (0xD800 ≤ r ∧ r ≤ 0xDFFF)
  · rw [if_pos h3]
    simp only [List.cons_append, List.nil_append, List.length_cons, List.length_nil]
    rw [decodeRune_three _ _ _ _ (by omega) (by omega)]
    simp
  rw [if_neg h3]
  by_cases h4 : r ≤ 0xFFFF
  · rw [if_pos h4]
    simp only [List.cons_append, List.nil_append, List.length_cons, List.length_nil]
    rw [decodeRune_three _ _ _ _ (by omega) (by omega), if_neg, if_neg (by omega)]
    · simp
    · split_ifs <;> omega
  · rw [if_neg h4]
    simp only [List.cons_append, List.nil_append, List.length_cons, List.length_nil]
    rw [decodeRune_four _ _ _ _ _ (by omega) (by omega), if_neg, if_neg (by omega),
      if_neg (by omega)]
    · simp
    · split_ifs <;> omega

theorem encodeRune_ascii (r : Nat) (h : r ≤ 0x7F) : encodeRune r = [r] := by
  simp [encodeRune, h]

/-- A valid string stays valid with the encoding of a rune in front. -/
theorem validUTF8_encodeRune_append (r : Nat) (t : List Nat) (ht : validUTF8 t = true) :
    validUTF8 (encodeRune r ++ t) = true := by
  by_cases hr : r ≤ 0x7F
  · rw [encodeRune_ascii r hr]
    exact validUTF8_cons_ascii r t (by omega) ht
  · have hd := decodeRune_encodeRune r t (by omega)
    have hne : encodeRune r ≠ [] := by
      intro h; rw [h] at hd; simp at hd; omega
    obtain ⟨b, rest, hbr⟩ : ∃ b rest, encodeRune r ++ t = b :: rest := by
      cases h : encodeRune r with
      | nil => exact absurd h hne
      | cons b l => exact ⟨b, l ++ t, rfl⟩
    unfold validUTF8 at ht ⊢
    rw [hbr] at hd ⊢
    simp only [List.length_cons, validUTF8Aux]
    rw [if_neg (by omega)]
    have hdrop : (b :: rest).drop (decodeRune (b :: rest)).2 = t := by
      rw [hd.2, ← hbr, List.drop_left]
    rw [hdrop, validUTF8Aux_fuel rest.length t t.length _ (Nat.le_refl _)]
    · exact ht
    · have : (b :: rest).length = (encodeRune r).length + t.length := by
        rw [← hbr, List.length_append]
      simp only [List.length_cons] at this
      omega

/-- One step of `unquote`: what it puts in front of the rest is an ASCII byte or the encoding
of a rune. -/
theorem unquote_step (f c : Nat) (rest t : List Nat) (h : unquote (f + 1) (c :: rest) = some t) :
    ∃ p t' raw', unquote f raw' = some t' ∧ t = p ++ t' ∧
      ((∃ x, x < 0x80 ∧ p = [x]) ∨ ∃ r, p = encodeRune r) := by
  by_cases hc : c = 0x5C
  · subst hc
    rcases rest with _ | ⟨e, rest1⟩
    · simp [unquote] at h
    simp only [unquote, if_true] at h
    split_ifs at h with h1 h2 h3 h4 h5 h6 h7
    · obtain ⟨t', ht', rfl⟩ := Option.map_eq_some'.mp h
      exact ⟨[e], t', _, ht', rfl, Or.inl ⟨e, by omega, rfl⟩⟩
    · obtain ⟨t', ht', rfl⟩ := Option.map_eq_some'.mp h
      exact ⟨[8], t', _, ht', rfl, Or.inl ⟨8, by omega, rfl⟩⟩
    · obtain ⟨t', ht', rfl⟩ := Option.map_eq_some'.mp h
      exact ⟨[12], t', _, ht', rfl, Or.inl ⟨12, by omega, rfl⟩⟩
    · obtain ⟨t', ht', rfl⟩ := Option.map_eq_some'.mp h
      exact ⟨[10], t', _, ht', rfl, Or.inl ⟨10, by omega, rfl⟩⟩
    · obtain ⟨t', ht', rfl⟩ := Option.map_eq_some'.mp h
      exact ⟨[13], t', _, ht', rfl, Or.inl ⟨13, by omega, rfl⟩⟩
    · obtain ⟨t', ht', rfl⟩ := Option.map_eq_some'.mp h
      exact ⟨[9], t', _, ht', rfl, Or.inl ⟨9, by omega, rfl⟩⟩
    · cases hg : getu4 (0x5C :: e :: rest1) with
      | none => simp [hg] at h
      | some rr =>
        simp only [hg] at h
        split_ifs at h with hs
        · cases hg2 : getu4 (List.drop 4 rest1) with
          | none =>
            simp only [hg2] at h
            obtain ⟨t', ht', rfl⟩ := Option.map_eq_some'.mp h
            exact ⟨_, t', _, ht', rfl, Or.inr ⟨_, rfl⟩⟩
          | some rr1 =>
            simp only [hg2] at h
            split_ifs at h
            · obtain ⟨t', ht', rfl⟩ := Option.map_eq_some'.mp h
              exact ⟨_, t', _, ht', rfl, Or.inr ⟨_, rfl⟩⟩
            · obtain ⟨t', ht', rfl⟩ := Option.map_eq_some'.mp h
              exact ⟨_, t', _, ht', rfl, Or.inr ⟨_, rfl⟩⟩
        · obtain ⟨t', ht', rfl⟩ := Option.map_eq_some'.mp h
          exact ⟨_, t', _, ht', rfl, Or.inr ⟨_, rfl⟩⟩
  · simp only [unquote, if_neg hc] at h
    split_ifs at h with h1 h2
    · obtain ⟨t', ht', rfl⟩ := Option.map_eq_some'.mp h
      exact ⟨[c], t', _, ht', rfl, Or.inl ⟨c, h2, rfl⟩⟩
    · obtain ⟨t', ht', rfl⟩ := Option.map_eq_some'.mp h
      exact ⟨_, t', _, ht', rfl, Or.inr ⟨_, rfl⟩⟩

/-- What `unquote` returns is valid UTF-8. -/
theorem unquote_valid : ∀ (f : Nat) (raw t : List Nat), unquote f raw = some t →
    validUTF8 t = true := by
  intro f
  induction f with
  | zero =>
    intro raw t h
    simp only [unquote] at h
    split_ifs at h
    cases h; rfl
  | succ f ih =>
    intro raw t h
    rcases raw with _ | ⟨c, rest⟩
    · simp only [unquote] at h; cases h; rfl
    obtain ⟨p, t', raw', ht', rfl, hp⟩ := unquote_step f c rest t h
    rcases hp with ⟨x, hx, rfl⟩ | ⟨r, rfl⟩
    · exact validUTF8_cons_ascii x t' hx (ih _ _ ht')
    · exact validUTF8_encodeRune_append r t' (ih _ _ ht')

theorem Scan.bind_eq_done {α β : Type} (m : Scan α) (g : α → List Nat → Scan β) (b : β)
    (r : List Nat) :
    m.bind g = .done b r ↔ ∃ a r', m = .done a r' ∧ g a r' = .done b r := by
  cases m with
  | done a r' =>
    exact ⟨fun h => ⟨a, r', rfl, h⟩, fun ⟨_, _, h1, h2⟩ => by cases h1; exact h2⟩
  | fail c context => simp [Scan.bind]
  | eof context => simp [Scan.bind]
  | fuel => simp [Scan.bind]

theorem scanValue_string_valid (f d : Nat) (inp : List Nat) (k : JKind) (r : List Nat)
    (h : scanValue (f + 1) d inp = .done k r) (s : GoString) (hk : k = .string s) :
    validUTF8 s = true := by
  subst hk
  simp only [scanValue] at h
  cases hs : skipSpace inp with
  | nil => simp [hs] at h
  | cons c rest =>
    simp only [hs] at h
    split_ifs at h
    all_goals
      obtain ⟨raw, r', _, h'⟩ := (Scan.bind_eq_done _ _ _ _).mp h
      first
        | exact absurd h' (by simp)
        | (cases hu : unquote raw.length raw with
            | none => simp [hu] at h'
            | some s' =>
              simp only [hu, Scan.done.injEq, JKind.string.injEq] at h'
              rw [← h'.1]
              exact unquote_valid _ _ _ hu)

/-- The strings among the members that the scanner returns are valid UTF-8. -/
theorem scanMembers_valid : ∀ (f d : Nat) (inp : List Nat) (ms : List (GoString × JKind))
    (r : List Nat), scanMembers f d inp = .done ms r →
      ∀ key s, (key, JKind.string s) ∈ ms → validUTF8 s = true := by
  intro f
  induction f with
  | zero => intro d inp ms r h; simp [scanMembers] at h
  | succ f ih =>
    intro d inp ms r h key s hmem
    simp only [scanMembers] at h
    cases hs : skipSpace inp with
    | nil => simp [hs] at h
    | cons c rest =>
      simp only [hs] at h
      split_ifs at h
      obtain ⟨raw, r1, _, h'⟩ := (Scan.bind_eq_done _ _ _ _).mp h
      cases hu : unquote raw.length raw with
      | none => simp [hu] at h'
      | some k0 =>
        simp only [hu] at h'
        cases hs1 : skipSpace r1 with
        | nil => simp [hs1] at h'
        | cons c1 r2 =>
          simp only [hs1] at h'
          split_ifs at h'
          obtain ⟨k, r3, hv, h''⟩ := (Scan.bind_eq_done _ _ _ _).mp h'
          cases hs3 : skipSpace r3 with
          | nil => simp [hs3] at h''
          | cons c2 r4 =>
            simp only [hs3] at h''
            have hk : ∀ s', k = .string s' → validUTF8 s' = true := by
              cases f with
              | zero => simp [scanValue] at hv
              | succ f' => exact scanValue_string_valid f' d r2 k r3 hv
            split_ifs at h''
            · obtain ⟨ms', r5, hm, h3'⟩ := (Scan.bind_eq_done _ _ _ _).mp h''
              simp only [Scan.done.injEq] at h3'
              rw [← h3'.1] at hmem
              rcases List.mem_cons.mp hmem with he | he
              · simp only [Prod.mk.injEq] at he
                exact hk s he.2.symm
              · exact ih d r4 ms' r5 hm key s he
            · simp only [Scan.done.injEq] at h''
              rw [← h''.1] at hmem
              simp only [List.mem_singleton, Prod.mk.injEq] at hmem
              exact hk s hmem.2.symm

theorem scanObject_valid (f d : Nat) (inp : List Nat) (ms : List (GoString × JKind))
    (r : List Nat) (h : scanObject f d inp = .done ms r) :
    ∀ key s, (key, JKind.string s) ∈ ms → validUTF8 s = true := by
  cases f with
  | zero => simp [scanObject] at h
  | succ f =>
    simp only [scanObject] at h
    cases hs : skipSpace inp with
    | nil => simp [hs] at h
    | cons c rest =>
      simp only [hs] at h
      split_ifs at h with h1
      · simp only [Scan.done.injEq] at h
        intro key s hmem
        rw [← h.1] at hmem
        simp at hmem
      · exact scanMembers_valid f d _ ms r h

theorem sdpTypeOfName_range (s : GoString) (t : Nat) (h : sdpTypeOfName s = some t) :
    1 ≤ t ∧ t ≤ 4 := by
  simp only [sdpTypeOfName] at h
  split_ifs at h <;> simp only [Option.some.injEq] at h <;> omega

/-- Decoding members whose strings are valid UTF-8 keeps a session description within the
types 0 to 4 and its text valid. -/
theorem decodeMembers_sdStep_valid : ∀ (ms : List (GoString × JKind)),
    (∀ key s, (key, JKind.string s) ∈ ms → validUTF8 s = true) →
    ∀ (v : SessionDescription) (saved : Option GoError), v.Typ ≤ 4 → validUTF8 v.SDP = true →
      (decodeMembers sdStep ms v saved).1.Typ ≤ 4 ∧
        validUTF8 (decodeMembers sdStep ms v saved).1.SDP = true := by
  intro ms
  induction ms with
  | nil => intro _ v saved h1 h2; exact ⟨h1, h2⟩
  | cons m ms ih =>
    intro hms v saved h1 h2
    obtain ⟨key, k⟩ := m
    have hms' : ∀ key s, (key, JKind.string s) ∈ ms → validUTF8 s = true :=
      fun key s hm => hms key s (List.mem_cons_of_mem _ hm)
    simp only [decodeMembers, sdStep]
    by_cases hk1 : keyIs key "type" = true
    · simp only [hk1, if_true]
      cases k with
      | string s =>
        simp only [storeSDPType]
        cases ht : sdpTypeOfName s with
        | none => exact ⟨h1, h2⟩
        | some t => exact ih hms' _ _ (sdpTypeOfName_range s t ht).2 h2
      | null => exact ⟨h1, h2⟩
      | bool => exact ⟨h1, h2⟩
      | number => exact ⟨h1, h2⟩
      | array => exact ⟨h1, h2⟩
      | object => exact ⟨h1, h2⟩
    · simp only [hk1, Bool.false_eq_true, if_false]
      by_cases hk2 : keyIs key "sdp" = true
      · simp only [hk2, if_true]
        cases k with
        | string s =>
          exact ih hms' _ _ h1 (hms key s (List.mem_cons_self _ _))
        | null => exact ih hms' _ _ h1 h2
        | bool => exact ih hms' _ _ h1 h2
        | number => exact ih hms' _ _ h1 h2
        | array => exact ih hms' _ _ h1 h2
        | object => exact ih hms' _ _ h1 h2
      · simp only [hk2, Bool.false_eq_true, if_false]
        exact ih hms' _ _ h1 h2

/-- What `json.Unmarshal` leaves in a session description that was zero: a type from 0 to 4
and a text that is valid UTF-8. -/
theorem unmarshalSD_valid (data : List Nat) :
    (unmarshalSD data ⟨0, []⟩).1.Typ ≤ 4 ∧ validUTF8 (unmarshalSD data ⟨0, []⟩).1.SDP = true := by
  unfold unmarshalSD
  cases hp : parseDocument data with
  | error e => exact ⟨Nat.zero_le _, rfl⟩
  | ok top =>
    cases top with
    | value k => cases k <;> exact ⟨Nat.zero_le _, rfl⟩
    | object ms =>
      simp only
      refine decodeMembers_sdStep_valid ms ?_ _ _ (by decide) (by decide)
      unfold parseDocument at hp
      cases hs : scanTop data with
      | done v rest =>
        rw [hs] at hp
        have hv : v = .object ms := by
          simp only at hp
          split at hp
          · simpa using hp
          · simp at hp
        subst hv
        unfold scanTop at hs
        cases hsp : skipSpace data with
        | nil => simp [hsp] at hs
        | cons c rest' =>
          simp only [hsp] at hs
          split_ifs at hs
          · obtain ⟨ms', r', hobj, h'⟩ := (Scan.bind_eq_done _ _ _ _).mp hs
            simp only [Scan.done.injEq, JTop.object.injEq] at h'
            rw [← h'.1]
            exact scanObject_valid _ _ _ _ _ hobj
          · obtain ⟨_, _, _, h'⟩ := (Scan.bind_eq_done _ _ _ _).mp hs
            simp at h'
      | fail c context => rw [hs] at hp; simp at hp
      | eof context => rw [hs] at hp; simp at hp
      | fuel => rw [hs] at hp; simp at hp

/-- The edge gets back every session description of a known type that the gateway read from
the JSON text of a client. -/
theorem decode64_encode64_unmarshalSD (data : List Nat) (sd : SessionDescription)
    (e : Option GoError) (h : unmarshalSD data ⟨0, []⟩ = (sd, e)) (ht : sd.Typ ≠ 0)
    (v : SessionDescription) :
    decode64 (encode64 sd) v = (sd, none) := by
  have hv := unmarshalSD_valid data
  rw [h] at hv
  rw [decode64_encode64 sd v (by omega) hv.1, coerceUTF8_valid sd.SDP hv.2]


/-! ## The claims -/

/-- The text of a `Cmd` is one JSON object with the members `name` and `data`. -/
theorem parseDocument_marshalCmd (c : Cmd) :
    parseDocument (marshalCmd c) =
      .ok (.object [(ascii "name", .string (coerceUTF8 c.Name)),
        (ascii "data", .string (coerceUTF8 c.Data))]) := by
  have hn : coerceUTF8 (ascii "name") = ascii "name" := by decide
  have hd : coerceUTF8 (ascii "data") = ascii "data" := by decide
  unfold parseDocument
  rw [marshalCmd_shape, scanTop_object2, hn, hd]
  rfl

set_option maxRecDepth 100000 in
/-- C1 (the code departs from it): the first command after `ready` is named `start`, not
`offer`, and carries an encoded session description.  `serve` sends no `error`: it hands the
description to `SetRemoteDescription`, creates the answer, sends `answer`, and the session runs
to its normal end. -/
theorem serve_takes_first_command_of_any_name :
    serve (acceptingEnv ⟨3, ascii "v=0 a"⟩)
        [marshalCmd ⟨ascii "start", encode64 ⟨1, ascii "v=0 o"⟩⟩,
          marshalCmd ⟨ascii "start", []⟩, marshalCmd ⟨ascii "stop", []⟩] [] =
      ⟨none,
        [.write (marshalCmd ⟨ascii "ready", []⟩) 26,
          .read,
          .setRemoteDescription ⟨1, ascii "v=0 o"⟩, .createAnswer,
          .setLocalDescription ⟨3, ascii "v=0 a"⟩, .gatherComplete,
          .write (marshalCmd ⟨ascii "answer", marshalSD ⟨3, ascii "v=0 a"⟩⟩) 66,
          .read, .startPlayer,
          .write (marshalCmd ⟨ascii "ok", []⟩) 23,
          .read,
          .write (marshalCmd ⟨ascii "ok", []⟩) 23,
          .released .killPlayer, .released .closeUDP, .released .closePeerConnection,
          .released .closeConn]⟩ := by
  decide

/-- C2: the peer sends a well-formed `offer`, then `start`, then `stop`; the libraries, the
launch of the player and every `Write` succeed.  `serve` writes `ready` before its first read,
then `answer`, `ok`, `ok`, one after each command read, and returns without a panic after
its deferred calls have killed the player and closed the UDP socket, the peer connection and
the control connection. -/
theorem serve_offer_start_stop (env : Env) (d d2 d3 : GoString)
    (offer answer : SessionDescription) (n : Nat)
    (h1 : env.registerCodec = none) (h2 : env.registerDefaultInterceptors = none)
    (h3 : env.newPeerConnection = none) (h4 : env.addTransceiverFromKind = none)
    (h5 : env.resolveLocalAddr = none) (h6 : env.resolveRemoteAddr = none)
    (h7 : env.dialUDP = none)
    (hd : validUTF8 d = true) (hoffer : decode64 d ⟨0, []⟩ = (offer, none))
    (hremote : env.setRemoteDescription offer = none) (hanswer : env.createAnswer = .ok answer)
    (hlocal : env.setLocalDescription answer = none) (hplayer : env.startPlayer = none)
    (hudp : env.closeUDP = none) :
    serve env [marshalCmd ⟨ascii "offer", d⟩, marshalCmd ⟨ascii "start", d2⟩,
        marshalCmd ⟨ascii "stop", d3⟩] (List.replicate n .full) =
      ⟨none,
        [.write (marshalCmd ⟨ascii "ready", []⟩) (marshalCmd ⟨ascii "ready", []⟩).length,
          .read, .setRemoteDescription offer, .createAnswer, .setLocalDescription answer,
          .gatherComplete,
          .write (marshalCmd ⟨ascii "answer", marshalSD env.localDescription⟩)
            (marshalCmd ⟨ascii "answer", marshalSD env.localDescription⟩).length,
          .read, .startPlayer,
          .write (marshalCmd ⟨ascii "ok", []⟩) (marshalCmd ⟨ascii "ok", []⟩).length,
          .read,
          .write (marshalCmd ⟨ascii "ok", []⟩) (marshalCmd ⟨ascii "ok", []⟩).length,
          .released .killPlayer, .released .closeUDP, .released .closePeerConnection,
          .released .closeConn]⟩ :=
  serve_session env (ascii "offer") d d2 d3 offer answer n h1 h2 h3 h4 h5 h6 h7
    (by rw [coerceUTF8_valid d hd]; exact hoffer) hremote hanswer hlocal hplayer hudp

set_option maxRecDepth 100000 in
/-- The run of C2 for the offer `v=0 o`, a negotiator that answers `v=0 a` and four `Write`s
that take all their bytes. -/
theorem serve_offer_start_stop_witness :
    validUTF8 (encode64 ⟨1, ascii "v=0 o"⟩) = true ∧
    decode64 (encode64 ⟨1, ascii "v=0 o"⟩) ⟨0, []⟩ = (⟨1, ascii "v=0 o"⟩, none) ∧
    serve (acceptingEnv ⟨3, ascii "v=0 a"⟩)
        [marshalCmd ⟨ascii "offer", encode64 ⟨1, ascii "v=0 o"⟩⟩,
          marshalCmd ⟨ascii "start", []⟩, marshalCmd ⟨ascii "stop", []⟩]
        [.full, .full, .full, .full] =
      ⟨none,
        [.write (marshalCmd ⟨ascii "ready", []⟩) (marshalCmd ⟨ascii "ready", []⟩).length,
          .read, .setRemoteDescription ⟨1, ascii "v=0 o"⟩, .createAnswer,
          .setLocalDescription ⟨3, ascii "v=0 a"⟩, .gatherComplete,
          .write (marshalCmd ⟨ascii "answer", marshalSD ⟨3, ascii "v=0 a"⟩⟩)
            (marshalCmd ⟨ascii "answer", marshalSD ⟨3, ascii "v=0 a"⟩⟩).length,
          .read, .startPlayer,
          .write (marshalCmd ⟨ascii "ok", []⟩) (marshalCmd ⟨ascii "ok", []⟩).length,
          .read,
          .write (marshalCmd ⟨ascii "ok", []⟩) (marshalCmd ⟨ascii "ok", []⟩).length,
          .released .killPlayer, .released .closeUDP, .released .closePeerConnection,
          .released .closeConn]⟩ :=
  ⟨by decide, by decide,
    serve_offer_start_stop (acceptingEnv ⟨3, ascii "v=0 a"⟩) (encode64 ⟨1, ascii "v=0 o"⟩) [] []
      ⟨1, ascii "v=0 o"⟩ ⟨3, ascii "v=0 a"⟩ 4 rfl rfl rfl rfl rfl rfl rfl (by decide) (by decide)
      rfl rfl rfl rfl rfl⟩

set_option maxRecDepth 100000 in
/-- C3, where it fails: the gateway accepts the client blob `{"sdp":"v=0"}`, which names no
type, as a session description of type 0; the edge rejects what `encode64` makes of it, with
`ErrUnknownType`. -/
theorem decode64_rejects_description_without_type :
    unmarshalSD (ascii "\x7b\"sdp\":\"v=0\"\x7d") ⟨0, []⟩ = (⟨0, ascii "v=0"⟩, none) ∧
    decode64 (encode64 ⟨0, ascii "v=0"⟩) ⟨0, []⟩ = (⟨0, []⟩, some .unknownType) := by
  decide

/-- C3, amended: for every blob of a client that the gateway reads as a session description
`sd` naming one of the types offer, pranswer, answer and rollback, the edge obtains `sd` with
`decode64` from what the gateway made with `encode64`; and `decode64` of `encode64` yields `d`
for every session description `d` of one of these types whose SDP text is valid UTF-8. -/
theorem decode64_encode64_known_type (data : List Nat) (sd d v : SessionDescription)
    (hdata : unmarshalSD data ⟨0, []⟩ = (sd, none)) (ht : sd.Typ ≠ 0)
    (h1 : 1 ≤ d.Typ) (h4 : d.Typ ≤ 4) (hv : validUTF8 d.SDP = true) :
    decode64 (encode64 sd) ⟨0, []⟩ = (sd, none) ∧ decode64 (encode64 d) v = (d, none) := by
  refine ⟨decode64_encode64_unmarshalSD data sd none hdata ht _, ?_⟩
  rw [decode64_encode64 d v h1 h4, coerceUTF8_valid d.SDP hv]

set_option maxRecDepth 100000 in
/-- The round trip of C3 for the blob `{"type":"offer","sdp":"v=0"}` of a client and for an
answer of two lines. -/
theorem decode64_encode64_known_type_witness :
    unmarshalSD (ascii "\x7b\"type\":\"offer\",\"sdp\":\"v=0\"\x7d") ⟨0, []⟩ =
      (⟨1, ascii "v=0"⟩, none) ∧
    decode64 (encode64 ⟨1, ascii "v=0"⟩) ⟨0, []⟩ = (⟨1, ascii "v=0"⟩, none) ∧
    decode64 (encode64 ⟨3, ascii "v=0\r\ns=-\r\n"⟩) ⟨0, []⟩ =
      (⟨3, ascii "v=0\r\ns=-\r\n"⟩, none) :=
  ⟨by decide,
    decode64_encode64_known_type (ascii "\x7b\"type\":\"offer\",\"sdp\":\"v=0\"\x7d")
      ⟨1, ascii "v=0"⟩ ⟨3, ascii "v=0\r\ns=-\r\n"⟩ ⟨0, []⟩ (by decide) (by decide) (by decide)
      (by decide) (by decide)⟩

set_option maxRecDepth 100000 in
/-- C4, where it fails: the name of the command is the single byte `0xFF`, which is no valid
UTF-8.  `send` writes it as the escape of U+FFFD, and `recv` returns a command whose name is
the three bytes of U+FFFD. -/
theorem recv_send_invalid_utf8 :
    recv ⟨[marshalCmd ⟨[0xFF], []⟩], [], [], []⟩ =
      (.ok (⟨[0xEF, 0xBF, 0xBD], []⟩, none), ⟨[], [], [.read], []⟩) := by
  decide

/-- C4, amended: for every command whose name and data are valid UTF-8, `send` to a writer
that takes all the bytes succeeds with one `Write` of one JSON object of the members `name`
and `data`, which holds no newline byte, and `recv` on a stream of exactly these bytes returns
the command and no error. -/
theorem recv_send_roundtrip (c : Cmd) (hn : validUTF8 c.Name = true)
    (hd : validUTF8 c.Data = true) :
    send c ⟨[], [], [], []⟩ =
      (.ok none, ⟨[], [], [.write (marshalCmd c) (marshalCmd c).length], []⟩) ∧
    parseDocument (marshalCmd c) =
      .ok (.object [(ascii "name", .string c.Name), (ascii "data", .string c.Data)]) ∧
    (∀ b ∈ marshalCmd c, b ≠ 0x0A) ∧
    recv ⟨[marshalCmd c], [], [], []⟩ = (.ok (c, none), ⟨[], [], [.read], []⟩) := by
  refine ⟨send_full c [] [] [], ?_, fun b hb => (marshalCmd_bytes c b hb).2, ?_⟩
  · rw [parseDocument_marshalCmd, coerceUTF8_valid _ hn, coerceUTF8_valid _ hd]
  · rw [recv_marshalCmd, coerceUTF8_valid _ hn, coerceUTF8_valid _ hd]
    rfl

set_option maxRecDepth 100000 in
/-- The round trip of C4 for an `error` command whose data holds a quote, a newline and a
letter of two bytes. -/
theorem recv_send_roundtrip_witness :
    recv ⟨[marshalCmd ⟨ascii "error", [0x22, 0x0A, 0xC3, 0xA9]⟩], [], [], []⟩ =
      (.ok (⟨ascii "error", [0x22, 0x0A, 0xC3, 0xA9]⟩, none), ⟨[], [], [.read], []⟩) :=
  (recv_send_roundtrip ⟨ascii "error", [0x22, 0x0A, 0xC3, 0xA9]⟩ (by decide) (by decide)).2.2.2

/-- C5: a packet was read, parsed and serialized, and `c.conn.Write` failed with `err`.  The
test that the loop makes holds exactly for a `*net.OpError` whose inner error reads
`write: connection refused`; when it holds the loop goes on with the packets to come, its next
act being the read of the next packet, and when it does not the loop ends in a panic with
`err`, no further packet read. -/
theorem relay_continues_iff_connection_refused (lib : RtpLib) (c : udpConn) (data : List Nat)
    (err : WriteError) (steps : List TrackStep) (b : List Nat) (trace : List RelayEvent)
    (p : RtpPacket) (n1 : Nat) (b2 : List Nat)
    (hparse : lib.unmarshal ((copyInto b data).take (min data.length b.length)) = .ok p)
    (hmarshal : lib.MarshalTo (p.setPayloadType c.payloadType) (copyInto b data) = .ok (n1, b2)) :
    (err.isRefused = true ↔
      ∃ desc inner, err = .opError desc inner ∧ inner.Error = ascii "write: connection refused") ∧
    (relayLoop lib c (⟨.ok data, some err⟩ :: steps) b trace =
      if err.isRefused then
        relayLoop lib c steps b2 (trace ++ [.trackRead, .writeFailed (b2.take n1)])
      else ⟨some err.toError, trace ++ [.trackRead, .writeFailed (b2.take n1)]⟩) ∧
    (err.isRefused = true → ∀ next more, ∃ rest,
      (relayLoop lib c (⟨.ok data, some err⟩ :: next :: more) b trace).trace =
        trace ++ [.trackRead, .writeFailed (b2.take n1), .trackRead] ++ rest) := by
  refine ⟨isRefused_iff err, ?_, ?_⟩
  · simp only [relayLoop, hparse, hmarshal]
  · intro hr next more
    obtain ⟨rest, h⟩ := relayLoop_reads_first lib c next more b2
      (trace ++ [.trackRead, .writeFailed (b2.take n1)])
    refine ⟨rest, ?_⟩
    have : relayLoop lib c (⟨.ok data, some err⟩ :: next :: more) b trace =
        relayLoop lib c (next :: more) b2 (trace ++ [.trackRead, .writeFailed (b2.take n1)]) := by
      simp only [relayLoop, hparse, hmarshal, hr, if_true]
    rw [this, h]
    simp

/-- A packet of sixteen bytes whose write is refused, then the end of the track: the loop has
gone on to the second read. -/
theorem relay_continues_iff_connection_refused_witness :
    relayLoop plainRtp ⟨4002, 96⟩
        [⟨.ok [128, 100, 0, 7, 0, 0, 0, 9, 0, 0, 0, 5, 1, 2, 3, 4],
            some (.opError "write udp 127.0.0.1:4002" (.foreign (ascii "write: connection refused")))⟩,
          ⟨.error .eof, none⟩]
        (List.replicate 20 0) [] =
      ⟨some .eof,
        [.trackRead, .writeFailed [128, 96, 0, 7, 0, 0, 0, 9, 0, 0, 0, 5, 1, 2, 3, 4],
          .trackRead]⟩ :=
  ((relay_continues_iff_connection_refused plainRtp ⟨4002, 96⟩
      [128, 100, 0, 7, 0, 0, 0, 9, 0, 0, 0, 5, 1, 2, 3, 4]
      (.opError "write udp 127.0.0.1:4002" (.foreign (ascii "write: connection refused")))
      [⟨.error .eof, none⟩] (List.replicate 20 0) []
      ⟨⟨2, false, false, false, 100, 7, 9, 5, [], 0, []⟩, [1, 2, 3, 4], 0⟩ 16
      [128, 96, 0, 7, 0, 0, 0, 9, 0, 0, 0, 5, 1, 2, 3, 4, 0, 0, 0, 0] (by decide) (by decide)).2.1).trans
    (by decide)

/-- C6: a packet was read from a video track and parsed as `p`.  What the loop writes to the
socket is the serialization of `p` with its payload type set to 96, the override of `video`,
and nothing else changed; it is written at the head of the buffer of 1500 bytes, which keeps
its size, and is never longer than it (a longer serialization is refused by `MarshalTo` and
ends the loop before any write). -/
theorem relay_rewrites_payload_type (lib : RtpLib) (data : List Nat)
    (steps : List TrackStep) (b : List Nat) (trace : List RelayEvent) (p : RtpPacket)
    (hb : b.length = 1500)
    (hparse : lib.unmarshal ((copyInto b data).take (min data.length b.length)) = .ok p) :
    udpConns "video" = some ⟨4002, 96⟩ ∧
    (p.setPayloadType 96).Header = { p.Header with PayloadType := 96 } ∧
    (p.setPayloadType 96).Payload = p.Payload ∧
    (p.setPayloadType 96).PaddingSize = p.PaddingSize ∧
    (relayLoop lib ⟨4002, 96⟩ (⟨.ok data, none⟩ :: steps) b trace =
      if 1500 < (lib.marshal (p.setPayloadType 96)).length then
        ⟨some (.foreign (ascii "short buffer")), trace ++ [.trackRead]⟩
      else
        relayLoop lib ⟨4002, 96⟩ steps
          (lib.marshal (p.setPayloadType 96) ++
            (copyInto b data).drop (lib.marshal (p.setPayloadType 96)).length)
          (trace ++ [.trackRead, .written (lib.marshal (p.setPayloadType 96))])) ∧
    ((lib.marshal (p.setPayloadType 96)).length ≤ 1500 →
      (lib.marshal (p.setPayloadType 96) ++
        (copyInto b data).drop (lib.marshal (p.setPayloadType 96)).length).length = 1500) := by
  have hlen : (copyInto b data).length = 1500 := by
    simp only [copyInto, List.length_append, List.length_take, List.length_drop, hb]
    omega
  refine ⟨by decide, rfl, rfl, rfl, ?_, ?_⟩
  · simp only [relayLoop, hparse, RtpLib.MarshalTo, hlen]
    split_ifs with h
    · rfl
    · simp
  · intro h
    simp only [List.length_append, List.length_drop, hlen]
    omega

set_option maxRecDepth 100000 in
/-- A video packet of payload type 100 goes to the socket with payload type 96, every other
byte as it came. -/
theorem relay_rewrites_payload_type_witness :
    relayLoop plainRtp ⟨4002, 96⟩
        [⟨.ok [128, 228, 0, 7, 0, 0, 0, 9, 0, 0, 0, 5, 1, 2, 3, 4], none⟩]
        (List.replicate 1500 0) [] =
      ⟨none, [.trackRead, .written [128, 224, 0, 7, 0, 0, 0, 9, 0, 0, 0, 5, 1, 2, 3, 4]]⟩ :=
  ((relay_rewrites_payload_type plainRtp [128, 228, 0, 7, 0, 0, 0, 9, 0, 0, 0, 5, 1, 2, 3, 4]
      [] (List.replicate 1500 0) []
      ⟨⟨2, false, false, true, 100, 7, 9, 5, [], 0, []⟩, [1, 2, 3, 4], 0⟩
      (List.length_replicate 1500 0) (by decide)).2.2.2.2.1).trans (by decide)

set_option maxRecDepth 100000 in
/-- C7 (the code departs from it): after `offer` and `start` the peer sends `pause` where
`stop` is due.  `serve` panics on the unexpected command without a `Write` on the control
connection: the last thing written is the `ok` that answered `start`. -/
theorem serve_streaming_unexpected_command_sends_nothing :
    serve (acceptingEnv ⟨3, ascii "v=0 a"⟩)
        [marshalCmd ⟨ascii "offer", encode64 ⟨1, ascii "v=0 o"⟩⟩,
          marshalCmd ⟨ascii "start", []⟩, marshalCmd ⟨ascii "pause", []⟩] [] =
      ⟨some (.errorf (ascii "unexpected command \x7bName:pause Data:\x7d")),
        [.write (marshalCmd ⟨ascii "ready", []⟩) 26,
          .read,
          .setRemoteDescription ⟨1, ascii "v=0 o"⟩, .createAnswer,
          .setLocalDescription ⟨3, ascii "v=0 a"⟩, .gatherComplete,
          .write (marshalCmd ⟨ascii "answer", marshalSD ⟨3, ascii "v=0 a"⟩⟩) 66,
          .read, .startPlayer,
          .write (marshalCmd ⟨ascii "ok", []⟩) 23,
          .read,
          .released .killPlayer, .released .closeUDP, .released .closePeerConnection,
          .released .closeConn]⟩ := by
  decide

set_option maxRecDepth 100000 in
/-- C8 (the code departs from it): the first command after `ready` is `{"name":"start"}`.
`recv` returns the command `start` with empty data; `serve` does not look at the name, fails to
decode the empty data as a session description and answers with the text of that failure,
`unexpected end of JSON input`, not with `unexpected command`; then the session is torn
down. -/
theorem serve_start_before_offer_reports_decoding_error :
    recv ⟨[ascii "\x7b\"name\":\"start\"\x7d"], [], [], []⟩ =
      (.ok (⟨ascii "start", []⟩, none), ⟨[], [], [.read], []⟩) ∧
    serve (acceptingEnv ⟨3, ascii "v=0 a"⟩) [ascii "\x7b\"name\":\"start\"\x7d"] [] =
      ⟨some .jsonEnd,
        [.write (marshalCmd ⟨ascii "ready", []⟩) 26,
          .read,
          .write (marshalCmd ⟨ascii "error", ascii "unexpected end of JSON input"⟩) 54,
          .released .closeUDP, .released .closePeerConnection, .released .closeConn]⟩ := by
  decide

set_option maxRecDepth 100000 in
/-- C9, where it fails: the data of the client message is the base64 text of a session
description.  `handleMsg` fails to parse it as JSON at its first byte `e` and returns the
error; nothing is sent to the edge and the reply that waits there is not read. -/
theorem handleMsg_rejects_base64_offer :
    handleMsg none ⟨ascii "offer", encode64 ⟨1, ascii "v=0"⟩⟩
        ⟨[marshalCmd ⟨ascii "answer", marshalSD ⟨3, ascii "v=0"⟩⟩], [], [], []⟩ =
      (.ok (some (.jsonChar 0x65 "looking for beginning of value")),
        ⟨[marshalCmd ⟨ascii "answer", marshalSD ⟨3, ascii "v=0"⟩⟩], [], [], []⟩) := by
  decide

/-- C9, amended: for every client message `offer` whose data is JSON text that
`json.Unmarshal` reads as the session description `sd`, `handleMsg` sends to the edge exactly
one command, `offer` with the data `encode64(sd)`, reads one reply, and when that reply is
named `answer` writes it to the client, name and data as received, and returns no error. -/
theorem handleMsg_offer_json (data rd : GoString) (sd : SessionDescription)
    (rs : List (List Nat)) (n : Nat) (tr : List Event) (ds : List Deferred)
    (hdata : unmarshalSD data ⟨0, []⟩ = (sd, none)) :
    recv ⟨marshalCmd ⟨ascii "answer", rd⟩ :: rs, [], [], []⟩ =
      (.ok (⟨ascii "answer", coerceUTF8 rd⟩, none), ⟨rs, [], [.read], []⟩) ∧
    handleMsg none ⟨ascii "offer", data⟩
        ⟨marshalCmd ⟨ascii "answer", rd⟩ :: rs, List.replicate n .full, tr, ds⟩ =
      (.ok none, ⟨rs, List.replicate (n - 1) .full,
        tr ++ [.write (marshalCmd ⟨ascii "offer", encode64 sd⟩)
                 (marshalCmd ⟨ascii "offer", encode64 sd⟩).length,
               .read,
               .wsWrite (marshalCmd ⟨ascii "answer", coerceUTF8 rd⟩ ++ [0x0A])], ds⟩) := by
  have c1 : coerceUTF8 (ascii "answer") = ascii "answer" := by decide
  have n1 : ¬ (ascii "offer" = ascii "start") := by decide
  have n2 : ¬ (ascii "offer" = ascii "stop") := by decide
  refine ⟨by rw [recv_marshalCmd, c1]; rfl, ?_⟩
  simp only [handleMsg, n1, n2, if_false, if_true, hdata, run_bind, run_pure, send_replicate,
    recv_marshalCmd, c1, ne_eq, not_true_eq_false, wsWriteJSON, emit, List.append_assoc,
    List.cons_append, List.nil_append]

set_option maxRecDepth 100000 in
/-- The exchange of C9 for the JSON offer `{"type":"offer","sdp":"v=0"}`. -/
theorem handleMsg_offer_json_witness :
    handleMsg none ⟨ascii "offer", ascii "\x7b\"type\":\"offer\",\"sdp\":\"v=0\"\x7d"⟩
        ⟨[marshalCmd ⟨ascii "answer", marshalSD ⟨3, ascii "v=0"⟩⟩], [], [], []⟩ =
      (.ok none, ⟨[], [],
        [.write (marshalCmd ⟨ascii "offer", encode64 ⟨1, ascii "v=0"⟩⟩)
           (marshalCmd ⟨ascii "offer", encode64 ⟨1, ascii "v=0"⟩⟩).length,
         .read,
         .wsWrite (marshalCmd ⟨ascii "answer", marshalSD ⟨3, ascii "v=0"⟩⟩ ++ [0x0A])], []⟩) :=
  ((handleMsg_offer_json (ascii "\x7b\"type\":\"offer\",\"sdp\":\"v=0\"\x7d")
      (marshalSD ⟨3, ascii "v=0"⟩) ⟨1, ascii "v=0"⟩ [] 0 [] [] (by decide)).2).trans (by decide)


end WrtcTst

